import Mathlib

/-!
Verification development for the twilight-indexer-api core: a shallow
embedding of the Sync Engine (`packages/indexer/src/sync.ts`), the Message
Decode Registry (`packages/indexer/src/decoders/`), and the Enrichment
Worker (`packages/indexer/src/enrichment.ts`), together with theorems
settling the specified properties of those components.

JavaScript runtime values flowing through the decoders are modelled by the
`Value` inductive; JS coercions (`BigInt(x)`, `parseInt(x, 10)`, `x || d`,
`String#includes`) are modelled by executable functions mirroring the
semantics on the value shapes that actually occur in the indexer (strings,
numbers, booleans, arrays and plain objects parsed from LCD JSON).
-/

namespace TwilightIndexer

/-- The JavaScript values the indexer manipulates: JSON scalars, wide
integers (`bigint`, produced only by the decoders), `NaN` (produced only by
`parseInt`), `undefined` (missing-property reads), arrays and objects
(modelled as association lists in property order). -/
inductive Value where
  | vStr (s : String)
  | vNum (n : Int)
  | vNaN
  | vBigInt (n : Int)
  | vBool (b : Bool)
  | vNull
  | vUndefined
  | vArr (elems : List Value)
  | vObj (fields : List (String × Value))

/-- A JavaScript object: fields in property order.  Raw LCD messages are
objects whose `"@type"` field is the message type identifier. -/
abbrev JsObj := List (String × Value)

/-- Property read `obj[k]`: the first binding for `k`, or `undefined`. -/
def getField (o : JsObj) (k : String) : Value :=
  match o.find? (fun kv => kv.1 == k) with
  | some kv => kv.2
  | none => .vUndefined

/-- JS truthiness of a value. -/
def truthy : Value → Bool
  | .vStr s => !(s == "")
  | .vNum n => !(n == 0)
  | .vNaN => false
  | .vBigInt n => !(n == 0)
  | .vBool b => b
  | .vNull => false
  | .vUndefined => false
  | .vArr _ => true
  | .vObj _ => true

/-- JS `a || b`: `b` when `a` is falsy, else `a`. -/
def jsOr (a b : Value) : Value :=
  if truthy a then a else b

/-- The needle is a prefix of the haystack. -/
def charsBeginWith : List Char → List Char → Bool
  | _, [] => true
  | [], _ :: _ => false
  | c :: cs, d :: ds => c == d && charsBeginWith cs ds

/-- The needle occurs somewhere in the haystack. -/
def listContainsSub (l sub : List Char) : Bool :=
  match l with
  | [] => charsBeginWith [] sub
  | _ :: rest => charsBeginWith l sub || listContainsSub rest sub

/-- JS `String#includes(sub)`: substring occurrence. -/
def jsIncludes (s sub : String) : Bool :=
  listContainsSub s.toList sub.toList

/-- JS `String#startsWith(pre)`. -/
def jsStartsWith (s pre : String) : Bool :=
  charsBeginWith s.toList pre.toList

/-- JS `String#toLowerCase` (ASCII, as used on field key names). -/
def jsToLower (s : String) : String :=
  String.mk (s.toList.map Char.toLower)

/-- JS `String#split(sep)` for a single-character separator. -/
def splitOnChar (c : Char) : List Char → List (List Char)
  | [] => [[]]
  | d :: ds =>
    let rest := splitOnChar c ds
    if d == c then [] :: rest
    else
      match rest with
      | r :: rs => (d :: r) :: rs
      | [] => [[d]]

/-- Whitespace stripped from both ends. -/
def trimChars (l : List Char) : List Char :=
  ((l.dropWhile Char.isWhitespace).reverse.dropWhile Char.isWhitespace).reverse

/-- Digit run parsed as a natural number, `none` when the run is empty. -/
def digitsToNat? (cs : List Char) : Option Nat :=
  match cs with
  | [] => none
  | _ =>
    if cs.all Char.isDigit then
      some (cs.foldl (fun acc c => acc * 10 + (c.toNat - 48)) 0)
    else
      none

/-- `BigInt(s)` on a string: surrounding whitespace stripped, empty means
zero, otherwise an optional sign followed by decimal digits; anything else
throws a `SyntaxError`. -/
def parseBigIntStr (s : String) : Option Int :=
  match trimChars s.toList with
  | [] => some 0
  | '-' :: rest => (digitsToNat? rest).map (fun n => -(n : Int))
  | '+' :: rest => (digitsToNat? rest).map (fun n => (n : Int))
  | cs => (digitsToNat? cs).map (fun n => (n : Int))

/-- JS `BigInt(v)` as used by the decoders.  Strings are parsed as decimal
integers; numbers, booleans and bigints convert; `null`, `undefined`, `NaN`
and (approximating the exotic `ToPrimitive` path) arrays and objects
throw. -/
def jsBigInt : Value → Except String Int
  | .vStr s =>
    match parseBigIntStr s with
    | some n => .ok n
    | none => .error "SyntaxError: Cannot convert string to a BigInt"
  | .vNum n => .ok n
  | .vNaN => .error "RangeError: NaN cannot be converted to a BigInt"
  | .vBigInt n => .ok n
  | .vBool b => .ok (if b then 1 else 0)
  | .vNull => .error "TypeError: Cannot convert null to a BigInt"
  | .vUndefined => .error "TypeError: Cannot convert undefined to a BigInt"
  | .vArr _ => .error "SyntaxError: Cannot convert array to a BigInt"
  | .vObj _ => .error "TypeError: Cannot convert object to a BigInt"

/-- Shallow string coercion feeding `parseInt` (array/object cases
approximated; the decoders only ever hand it strings or `undefined`). -/
def jsShallowString : Value → String
  | .vStr s => s
  | .vNum n => toString n
  | .vNaN => "NaN"
  | .vBigInt n => toString n
  | .vBool b => if b then "true" else "false"
  | .vNull => "null"
  | .vUndefined => "undefined"
  | .vArr _ => ""
  | .vObj _ => "[object Object]"

/-- `parseInt(v, 10)`: coerce to string, skip leading whitespace, optional
sign, then the longest leading digit run; no digits means `NaN`. -/
def jsParseInt (v : Value) : Value :=
  let cs := (jsShallowString v).toList.dropWhile Char.isWhitespace
  let signedRun : Bool × List Char :=
    match cs with
    | '-' :: rest => (true, rest.takeWhile Char.isDigit)
    | '+' :: rest => (false, rest.takeWhile Char.isDigit)
    | _ => (false, cs.takeWhile Char.isDigit)
  match digitsToNat? signedRun.2 with
  | some n => .vNum (if signedRun.1 then -(n : Int) else (n : Int))
  | none => .vNaN

/-! ### Message type constants (`decoders/types.ts`) -/

def MESSAGE_TYPES.CONFIRM_BTC_DEPOSIT : String := "/twilightproject.nyks.bridge.MsgConfirmBtcDeposit"

def MESSAGE_TYPES.REGISTER_BTC_DEPOSIT_ADDRESS : String := "/twilightproject.nyks.bridge.MsgRegisterBtcDepositAddress"

def MESSAGE_TYPES.REGISTER_RESERVE_ADDRESS : String := "/twilightproject.nyks.bridge.MsgRegisterReserveAddress"

def MESSAGE_TYPES.BOOTSTRAP_FRAGMENT : String := "/twilightproject.nyks.bridge.MsgBootstrapFragment"

def MESSAGE_TYPES.WITHDRAW_BTC_REQUEST : String := "/twilightproject.nyks.bridge.MsgWithdrawBtcRequest"

def MESSAGE_TYPES.SWEEP_PROPOSAL : String := "/twilightproject.nyks.bridge.MsgSweepProposal"

def MESSAGE_TYPES.WITHDRAW_TX_SIGNED : String := "/twilightproject.nyks.bridge.MsgWithdrawTxSigned"

def MESSAGE_TYPES.WITHDRAW_TX_FINAL : String := "/twilightproject.nyks.bridge.MsgWithdrawTxFinal"

def MESSAGE_TYPES.CONFIRM_BTC_WITHDRAW : String := "/twilightproject.nyks.bridge.MsgConfirmBtcWithdraw"

def MESSAGE_TYPES.SIGN_REFUND : String := "/twilightproject.nyks.bridge.MsgSignRefund"

def MESSAGE_TYPES.BROADCAST_TX_SWEEP : String := "/twilightproject.nyks.bridge.MsgBroadcastTxSweep"

def MESSAGE_TYPES.SIGN_SWEEP : String := "/twilightproject.nyks.bridge.MsgSignSweep"

def MESSAGE_TYPES.PROPOSE_REFUND_HASH : String := "/twilightproject.nyks.bridge.MsgProposeRefundHash"

def MESSAGE_TYPES.UNSIGNED_TX_SWEEP : String := "/twilightproject.nyks.bridge.MsgUnsignedTxSweep"

def MESSAGE_TYPES.UNSIGNED_TX_REFUND : String := "/twilightproject.nyks.bridge.MsgUnsignedTxRefund"

def MESSAGE_TYPES.BROADCAST_TX_REFUND : String := "/twilightproject.nyks.bridge.MsgBroadcastTxRefund"

def MESSAGE_TYPES.PROPOSE_SWEEP_ADDRESS : String := "/twilightproject.nyks.bridge.MsgProposeSweepAddress"

def MESSAGE_TYPES.SET_DELEGATE_ADDRESSES : String := "/twilightproject.nyks.forks.MsgSetDelegateAddresses"

def MESSAGE_TYPES.SEEN_BTC_CHAIN_TIP : String := "/twilightproject.nyks.forks.MsgSeenBtcChainTip"

def MESSAGE_TYPES.SIGNER_APPLICATION : String := "/twilightproject.nyks.volt.MsgSignerApplication"

def MESSAGE_TYPES.ACCEPT_SIGNERS : String := "/twilightproject.nyks.volt.MsgAcceptSigners"

def MESSAGE_TYPES.TRANSFER_TX : String := "/twilightproject.nyks.zkos.MsgTransferTx"

def MESSAGE_TYPES.MINT_BURN_TRADING_BTC : String := "/twilightproject.nyks.zkos.MsgMintBurnTradingBtc"

/-- `MESSAGE_TYPE_NAMES`: reverse mapping from type URL to constant key,
in `MESSAGE_TYPES` entry order. -/
def MESSAGE_TYPE_NAMES : List (String × String) :=
  [ (MESSAGE_TYPES.CONFIRM_BTC_DEPOSIT, "CONFIRM_BTC_DEPOSIT")
  , (MESSAGE_TYPES.REGISTER_BTC_DEPOSIT_ADDRESS, "REGISTER_BTC_DEPOSIT_ADDRESS")
  , (MESSAGE_TYPES.REGISTER_RESERVE_ADDRESS, "REGISTER_RESERVE_ADDRESS")
  , (MESSAGE_TYPES.BOOTSTRAP_FRAGMENT, "BOOTSTRAP_FRAGMENT")
  , (MESSAGE_TYPES.WITHDRAW_BTC_REQUEST, "WITHDRAW_BTC_REQUEST")
  , (MESSAGE_TYPES.SWEEP_PROPOSAL, "SWEEP_PROPOSAL")
  , (MESSAGE_TYPES.WITHDRAW_TX_SIGNED, "WITHDRAW_TX_SIGNED")
  , (MESSAGE_TYPES.WITHDRAW_TX_FINAL, "WITHDRAW_TX_FINAL")
  , (MESSAGE_TYPES.CONFIRM_BTC_WITHDRAW, "CONFIRM_BTC_WITHDRAW")
  , (MESSAGE_TYPES.SIGN_REFUND, "SIGN_REFUND")
  , (MESSAGE_TYPES.BROADCAST_TX_SWEEP, "BROADCAST_TX_SWEEP")
  , (MESSAGE_TYPES.SIGN_SWEEP, "SIGN_SWEEP")
  , (MESSAGE_TYPES.PROPOSE_REFUND_HASH, "PROPOSE_REFUND_HASH")
  , (MESSAGE_TYPES.UNSIGNED_TX_SWEEP, "UNSIGNED_TX_SWEEP")
  , (MESSAGE_TYPES.UNSIGNED_TX_REFUND, "UNSIGNED_TX_REFUND")
  , (MESSAGE_TYPES.BROADCAST_TX_REFUND, "BROADCAST_TX_REFUND")
  , (MESSAGE_TYPES.PROPOSE_SWEEP_ADDRESS, "PROPOSE_SWEEP_ADDRESS")
  , (MESSAGE_TYPES.SET_DELEGATE_ADDRESSES, "SET_DELEGATE_ADDRESSES")
  , (MESSAGE_TYPES.SEEN_BTC_CHAIN_TIP, "SEEN_BTC_CHAIN_TIP")
  , (MESSAGE_TYPES.SIGNER_APPLICATION, "SIGNER_APPLICATION")
  , (MESSAGE_TYPES.ACCEPT_SIGNERS, "ACCEPT_SIGNERS")
  , (MESSAGE_TYPES.TRANSFER_TX, "TRANSFER_TX")
  , (MESSAGE_TYPES.MINT_BURN_TRADING_BTC, "MINT_BURN_TRADING_BTC")
  ]

/-- `getModuleFromType` (`decoders/types.ts`). -/
def getModuleFromType (msgType : String) : Option String :=
  if jsIncludes msgType ".bridge." then some "bridge"
  else if jsIncludes msgType ".forks." then some "forks"
  else if jsIncludes msgType ".volt." then some "volt"
  else if jsIncludes msgType ".zkos." then some "zkos"
  else none

/-- `isBridgeMessage` (`decoders/bridge.ts`). -/
def isBridgeMessage (msgType : String) : Bool := jsIncludes msgType ".bridge."

/-- `isForksMessage` (`decoders/forks.ts`). -/
def isForksMessage (msgType : String) : Bool := jsIncludes msgType ".forks."

/-- `isVoltMessage` (`decoders/volt.ts`). -/
def isVoltMessage (msgType : String) : Bool := jsIncludes msgType ".volt."

/-- `isZkosMessage` (`decoders/zkos.ts`). -/
def isZkosMessage (msgType : String) : Bool := jsIncludes msgType ".zkos."

/-! ### Bridge module decoders (`decoders/bridge.ts`)

Each decoder builds its result object field-by-field in source order; a
throwing `BigInt` coercion aborts the object literal, modelled by binding
in the `Except` monad in the same order. -/

def decodeConfirmBtcDeposit (msg : JsObj) : Except String JsObj := do
  let depositAmount ← jsBigInt (jsOr (getField msg "depositAmount") (.vStr "0"))
  let btcHeight ← jsBigInt (jsOr (getField msg "height") (.vStr "0"))
  pure
    [ ("reserveAddress", getField msg "reserveAddress")
    , ("depositAmount", .vBigInt depositAmount)
    , ("btcHeight", .vBigInt btcHeight)
    , ("btcHash", getField msg "hash")
    , ("twilightDepositAddress", getField msg "twilightDepositAddress")
    , ("oracleAddress", getField msg "oracleAddress")
    ]

def decodeRegisterBtcDepositAddress (msg : JsObj) : Except String JsObj := do
  let btcSatoshiTestAmount ← jsBigInt (jsOr (getField msg "btcSatoshiTestAmount") (.vStr "0"))
  let twilightStakingAmount ← jsBigInt (jsOr (getField msg "twilightStakingAmount") (.vStr "0"))
  pure
    [ ("btcDepositAddress", getField msg "btcDepositAddress")
    , ("btcSatoshiTestAmount", .vBigInt btcSatoshiTestAmount)
    , ("twilightStakingAmount", .vBigInt twilightStakingAmount)
    , ("twilightAddress", getField msg "twilightAddress")
    ]

def decodeRegisterReserveAddress (msg : JsObj) : Except String JsObj := do
  let fragmentId ← jsBigInt (jsOr (getField msg "fragmentId") (.vStr "0"))
  pure
    [ ("fragmentId", .vBigInt fragmentId)
    , ("reserveScript", getField msg "reserveScript")
    , ("reserveAddress", getField msg "reserveAddress")
    , ("judgeAddress", getField msg "judgeAddress")
    ]

def decodeBootstrapFragment (msg : JsObj) : Except String JsObj := do
  let signerApplicationFee ← jsBigInt (jsOr (getField msg "signerApplicationFee") (.vStr "0"))
  pure
    [ ("judgeAddress", getField msg "judgeAddress")
    , ("numOfSigners", jsParseInt (jsOr (getField msg "numOfSigners") (.vStr "0")))
    , ("threshold", jsParseInt (jsOr (getField msg "threshold") (.vStr "0")))
    , ("signerApplicationFee", .vBigInt signerApplicationFee)
    , ("fragmentFeeBips", jsParseInt (jsOr (getField msg "fragmentFeeBips") (.vStr "0")))
    , ("arbitraryData", getField msg "arbitraryData")
    , ("validatorAddress", getField msg "validatorAddress")
    ]

def decodeWithdrawBtcRequest (msg : JsObj) : Except String JsObj := do
  let reserveId ← jsBigInt (jsOr (getField msg "reserveId") (.vStr "0"))
  let withdrawAmount ← jsBigInt (jsOr (getField msg "withdrawAmount") (.vStr "0"))
  pure
    [ ("withdrawAddress", getField msg "withdrawAddress")
    , ("reserveId", .vBigInt reserveId)
    , ("withdrawAmount", .vBigInt withdrawAmount)
    , ("twilightAddress", getField msg "twilightAddress")
    ]

def decodeSweepProposal (msg : JsObj) : Except String JsObj := do
  let reserveId ← jsBigInt (jsOr (getField msg "reserveId") (.vStr "0"))
  let btcBlockNumber ← jsBigInt (jsOr (getField msg "BtcBlockNumber") (.vStr "0"))
  let btcRelayCapacityValue ← jsBigInt (jsOr (getField msg "btcRelayCapacityValue") (.vStr "0"))
  let unlockHeight ← jsBigInt (jsOr (getField msg "UnlockHeight") (.vStr "0"))
  let roundId ← jsBigInt (jsOr (getField msg "roundId") (.vStr "0"))
  pure
    [ ("reserveId", .vBigInt reserveId)
    , ("newReserveAddress", getField msg "newReserveAddress")
    , ("judgeAddress", getField msg "judgeAddress")
    , ("btcBlockNumber", .vBigInt btcBlockNumber)
    , ("btcRelayCapacityValue", .vBigInt btcRelayCapacityValue)
    , ("btcTxHash", getField msg "btcTxHash")
    , ("unlockHeight", .vBigInt unlockHeight)
    , ("roundId", .vBigInt roundId)
    , ("oracleAddress", getField msg "oracleAddress")
    ]

def decodeWithdrawTxSigned (msg : JsObj) : Except String JsObj :=
  pure
    [ ("creator", getField msg "creator")
    , ("validatorAddress", getField msg "validatorAddress")
    , ("btcTxSigned", getField msg "btcTxSigned")
    ]

def decodeWithdrawTxFinal (msg : JsObj) : Except String JsObj :=
  pure
    [ ("creator", getField msg "creator")
    , ("judgeAddress", getField msg "judgeAddress")
    , ("btcTx", getField msg "btcTx")
    ]

def decodeConfirmBtcWithdraw (msg : JsObj) : Except String JsObj := do
  let btcHeight ← jsBigInt (jsOr (getField msg "height") (.vStr "0"))
  pure
    [ ("btcTxHash", getField msg "txHash")
    , ("btcHeight", .vBigInt btcHeight)
    , ("btcHash", getField msg "hash")
    , ("judgeAddress", getField msg "judgeAddress")
    ]

def decodeSignRefund (msg : JsObj) : Except String JsObj := do
  let reserveId ← jsBigInt (jsOr (getField msg "reserveId") (.vStr "0"))
  let roundId ← jsBigInt (jsOr (getField msg "roundId") (.vStr "0"))
  pure
    [ ("reserveId", .vBigInt reserveId)
    , ("roundId", .vBigInt roundId)
    , ("signerPublicKey", getField msg "signerPublicKey")
    , ("refundSignatures", jsOr (getField msg "refundSignature") (.vArr []))
    , ("signerAddress", getField msg "signerAddress")
    ]

def decodeBroadcastTxSweep (msg : JsObj) : Except String JsObj := do
  let reserveId ← jsBigInt (jsOr (getField msg "reserveId") (.vStr "0"))
  let roundId ← jsBigInt (jsOr (getField msg "roundId") (.vStr "0"))
  pure
    [ ("reserveId", .vBigInt reserveId)
    , ("roundId", .vBigInt roundId)
    , ("signedSweepTx", getField msg "signedSweepTx")
    , ("judgeAddress", getField msg "judgeAddress")
    ]

def decodeSignSweep (msg : JsObj) : Except String JsObj := do
  let reserveId ← jsBigInt (jsOr (getField msg "reserveId") (.vStr "0"))
  let roundId ← jsBigInt (jsOr (getField msg "roundId") (.vStr "0"))
  pure
    [ ("reserveId", .vBigInt reserveId)
    , ("roundId", .vBigInt roundId)
    , ("signerPublicKey", getField msg "signerPublicKey")
    , ("sweepSignatures", jsOr (getField msg "sweepSignature") (.vArr []))
    , ("signerAddress", getField msg "signerAddress")
    ]

def decodeProposeRefundHash (msg : JsObj) : Except String JsObj :=
  pure
    [ ("refundHash", getField msg "refundHash")
    , ("judgeAddress", getField msg "judgeAddress")
    ]

def decodeUnsignedTxSweep (msg : JsObj) : Except String JsObj := do
  let reserveId ← jsBigInt (jsOr (getField msg "reserveId") (.vStr "0"))
  let roundId ← jsBigInt (jsOr (getField msg "roundId") (.vStr "0"))
  pure
    [ ("txId", getField msg "txId")
    , ("btcUnsignedSweepTx", getField msg "btcUnsignedSweepTx")
    , ("reserveId", .vBigInt reserveId)
    , ("roundId", .vBigInt roundId)
    , ("judgeAddress", getField msg "judgeAddress")
    ]

def decodeUnsignedTxRefund (msg : JsObj) : Except String JsObj := do
  let reserveId ← jsBigInt (jsOr (getField msg "reserveId") (.vStr "0"))
  let roundId ← jsBigInt (jsOr (getField msg "roundId") (.vStr "0"))
  pure
    [ ("reserveId", .vBigInt reserveId)
    , ("roundId", .vBigInt roundId)
    , ("btcUnsignedRefundTx", getField msg "btcUnsignedRefundTx")
    , ("judgeAddress", getField msg "judgeAddress")
    ]

def decodeBroadcastTxRefund (msg : JsObj) : Except String JsObj := do
  let reserveId ← jsBigInt (jsOr (getField msg "reserveId") (.vStr "0"))
  let roundId ← jsBigInt (jsOr (getField msg "roundId") (.vStr "0"))
  pure
    [ ("reserveId", .vBigInt reserveId)
    , ("roundId", .vBigInt roundId)
    , ("signedRefundTx", getField msg "signedRefundTx")
    , ("judgeAddress", getField msg "judgeAddress")
    ]

def decodeProposeSweepAddress (msg : JsObj) : Except String JsObj := do
  let reserveId ← jsBigInt (jsOr (getField msg "reserveId") (.vStr "0"))
  let roundId ← jsBigInt (jsOr (getField msg "roundId") (.vStr "0"))
  pure
    [ ("btcAddress", getField msg "btcAddress")
    , ("btcScript", getField msg "btcScript")
    , ("reserveId", .vBigInt reserveId)
    , ("roundId", .vBigInt roundId)
    , ("judgeAddress", getField msg "judgeAddress")
    ]

/-! ### Forks module decoders (`decoders/forks.ts`) -/

def decodeSetDelegateAddresses (msg : JsObj) : Except String JsObj :=
  pure
    [ ("validatorAddress", getField msg "validatorAddress")
    , ("btcOracleAddress", getField msg "btcOracleAddress")
    , ("btcPublicKey", getField msg "btcPublicKey")
    , ("zkOracleAddress", jsOr (getField msg "zkOracleAddress") .vNull)
    ]

def decodeSeenBtcChainTip (msg : JsObj) : Except String JsObj := do
  let btcHeight ← jsBigInt (jsOr (getField msg "height") (.vStr "0"))
  pure
    [ ("btcHeight", .vBigInt btcHeight)
    , ("btcHash", getField msg "hash")
    , ("btcOracleAddress", getField msg "btcOracleAddress")
    ]

/-! ### Volt module decoders (`decoders/volt.ts`) -/

def decodeSignerApplication (msg : JsObj) : Except String JsObj := do
  let fragmentId ← jsBigInt (jsOr (getField msg "fragmentId") (.vStr "0"))
  let applicationFee ← jsBigInt (jsOr (getField msg "applicationFee") (.vStr "0"))
  pure
    [ ("fragmentId", .vBigInt fragmentId)
    , ("applicationFee", .vBigInt applicationFee)
    , ("feeBips", jsParseInt (jsOr (getField msg "feeBips") (.vStr "0")))
    , ("btcPubKey", getField msg "btcPubKey")
    , ("signerAddress", getField msg "signerAddress")
    ]

/-- `decodeAcceptSigners` maps `BigInt` over `signerApplicationIds`
(`(msg.signerApplicationIds || []).map(id => BigInt(id))`); a non-array
operand of `.map` throws. -/
def decodeAcceptSigners (msg : JsObj) : Except String JsObj := do
  let fragmentId ← jsBigInt (jsOr (getField msg "fragmentId") (.vStr "0"))
  let ids ←
    match jsOr (getField msg "signerApplicationIds") (.vArr []) with
    | .vArr elems => elems.mapM (fun v => (jsBigInt v).map Value.vBigInt)
    | _ => .error "TypeError: map is not a function"
  pure
    [ ("fragmentId", .vBigInt fragmentId)
    , ("signerApplicationIds", .vArr ids)
    , ("judgeAddress", getField msg "judgeAddress")
    ]

/-! ### zkOS module decoders (`decoders/zkos.ts`) -/

def decodeTransferTx (msg : JsObj) : Except String JsObj := do
  let txFee ← jsBigInt (jsOr (getField msg "txFee") (.vStr "0"))
  pure
    [ ("zkTxId", getField msg "txId")
    , ("txByteCode", getField msg "txByteCode")
    , ("txFee", .vBigInt txFee)
    , ("zkOracleAddress", getField msg "zkOracleAddress")
    ]

def decodeMintBurnTradingBtc (msg : JsObj) : Except String JsObj := do
  let btcValue ← jsBigInt (jsOr (getField msg "btcValue") (.vStr "0"))
  pure
    [ ("mintOrBurn", getField msg "mintOrBurn")
    , ("btcValue", .vBigInt btcValue)
    , ("qqAccount", getField msg "qqAccount")
    , ("encryptScalar", getField msg "encryptScalar")
    , ("twilightAddress", getField msg "twilightAddress")
    ]

/-! ### Message decode dispatch (`decoders/index.ts`) -/

/-- The structural passthrough: `{...msg}` followed by
`delete data['@type']` — all original fields except the type
discriminator (object keys are unique, so the filter removes exactly that
binding). -/
def passthroughData (msg : JsObj) : JsObj :=
  msg.filter (fun kv => !(kv.1 == "@type"))

/-- `msg['@type']` read as a string.  LCD messages always carry a string
`@type`; on other shapes the source would throw before dispatch, and every
theorem about `decodeMessage` constrains the field to be a string. -/
def typeOf (msg : JsObj) : String :=
  jsShallowString (getField msg "@type")

/-- `MESSAGE_TYPE_NAMES[msgType] || msgType.split('.').pop() || 'Unknown'`
(absent lookup and empty string are both falsy). -/
def messageTypeName (msgType : String) : String :=
  let fromMap :=
    match MESSAGE_TYPE_NAMES.find? (fun kv => kv.1 == msgType) with
    | some kv => kv.2
    | none => ""
  if fromMap != "" then fromMap
  else
    let lastPiece := String.mk ((splitOnChar '.' msgType.toList).getLastD [])
    if lastPiece != "" then lastPiece else "Unknown"

/-- The bridge-module `switch`: exact type identifier to decoder, in
source case order (first match wins, as in a `switch`). -/
def bridgeDecoders : List (String × (JsObj → Except String JsObj)) :=
  [ (MESSAGE_TYPES.CONFIRM_BTC_DEPOSIT, decodeConfirmBtcDeposit)
  , (MESSAGE_TYPES.REGISTER_BTC_DEPOSIT_ADDRESS, decodeRegisterBtcDepositAddress)
  , (MESSAGE_TYPES.REGISTER_RESERVE_ADDRESS, decodeRegisterReserveAddress)
  , (MESSAGE_TYPES.BOOTSTRAP_FRAGMENT, decodeBootstrapFragment)
  , (MESSAGE_TYPES.WITHDRAW_BTC_REQUEST, decodeWithdrawBtcRequest)
  , (MESSAGE_TYPES.SWEEP_PROPOSAL, decodeSweepProposal)
  , (MESSAGE_TYPES.WITHDRAW_TX_SIGNED, decodeWithdrawTxSigned)
  , (MESSAGE_TYPES.WITHDRAW_TX_FINAL, decodeWithdrawTxFinal)
  , (MESSAGE_TYPES.CONFIRM_BTC_WITHDRAW, decodeConfirmBtcWithdraw)
  , (MESSAGE_TYPES.SIGN_REFUND, decodeSignRefund)
  , (MESSAGE_TYPES.BROADCAST_TX_SWEEP, decodeBroadcastTxSweep)
  , (MESSAGE_TYPES.SIGN_SWEEP, decodeSignSweep)
  , (MESSAGE_TYPES.PROPOSE_REFUND_HASH, decodeProposeRefundHash)
  , (MESSAGE_TYPES.UNSIGNED_TX_SWEEP, decodeUnsignedTxSweep)
  , (MESSAGE_TYPES.UNSIGNED_TX_REFUND, decodeUnsignedTxRefund)
  , (MESSAGE_TYPES.BROADCAST_TX_REFUND, decodeBroadcastTxRefund)
  , (MESSAGE_TYPES.PROPOSE_SWEEP_ADDRESS, decodeProposeSweepAddress)
  ]

/-- The forks-module `switch` cases. -/
def forksDecoders : List (String × (JsObj → Except String JsObj)) :=
  [ (MESSAGE_TYPES.SET_DELEGATE_ADDRESSES, decodeSetDelegateAddresses)
  , (MESSAGE_TYPES.SEEN_BTC_CHAIN_TIP, decodeSeenBtcChainTip)
  ]

/-- The volt-module `switch` cases. -/
def voltDecoders : List (String × (JsObj → Except String JsObj)) :=
  [ (MESSAGE_TYPES.SIGNER_APPLICATION, decodeSignerApplication)
  , (MESSAGE_TYPES.ACCEPT_SIGNERS, decodeAcceptSigners)
  ]

/-- The zkOS-module `switch` cases. -/
def zkosDecoders : List (String × (JsObj → Except String JsObj)) :=
  [ (MESSAGE_TYPES.TRANSFER_TX, decodeTransferTx)
  , (MESSAGE_TYPES.MINT_BURN_TRADING_BTC, decodeMintBurnTradingBtc)
  ]

/-- One module's `switch` on the exact type identifier: run the first
matching case, defaulting to the passthrough. -/
def moduleSwitch (table : List (String × (JsObj → Except String JsObj)))
    (msgType : String) (msg : JsObj) : Except String JsObj :=
  match table.find? (fun kv => kv.1 == msgType) with
  | some kv => kv.2 msg
  | none => pure (passthroughData msg)

/-- The `try` body of `decodeMessage`: module dispatch by namespace
substring, then the module's switch on the exact type identifier,
defaulting to the passthrough. -/
def decodeMessageData (msgType : String) (msg : JsObj) : Except String JsObj :=
  if isBridgeMessage msgType then moduleSwitch bridgeDecoders msgType msg
  else if isForksMessage msgType then moduleSwitch forksDecoders msgType msg
  else if isVoltMessage msgType then moduleSwitch voltDecoders msgType msg
  else if isZkosMessage msgType then moduleSwitch zkosDecoders msgType msg
  else pure (passthroughData msg)

/-- The specific decoder the dispatch would select for a type identifier,
`none` when every branch falls through to the passthrough. -/
def specificDecoder (msgType : String) : Option (JsObj → Except String JsObj) :=
  if isBridgeMessage msgType then
    (bridgeDecoders.find? (fun kv => kv.1 == msgType)).map (fun kv => kv.2)
  else if isForksMessage msgType then
    (forksDecoders.find? (fun kv => kv.1 == msgType)).map (fun kv => kv.2)
  else if isVoltMessage msgType then
    (voltDecoders.find? (fun kv => kv.1 == msgType)).map (fun kv => kv.2)
  else if isZkosMessage msgType then
    (zkosDecoders.find? (fun kv => kv.1 == msgType)).map (fun kv => kv.2)
  else none

/-- Result record of `decodeMessage`. -/
structure DecodedMessage where
  type : String
  typeName : String
  module : Option String
  data : JsObj
  raw : JsObj

/-- `decodeMessage` (`decoders/index.ts`): dispatch wrapped in
`try`/`catch`; on a decoder error the data falls back to the passthrough
representation, so the function always returns normally. -/
def decodeMessage (msg : JsObj) : DecodedMessage :=
  let msgType := typeOf msg
  let data :=
    match decodeMessageData msgType msg with
    | .ok d => d
    | .error _ => passthroughData msg
  { type := msgType
  , typeName := messageTypeName msgType
  , module := getModuleFromType msgType
  , data := data
  , raw := msg }

/-- Array branch of `serializeDecodedData`: only direct `bigint` elements
are stringified (`value.map(v => typeof v === 'bigint' ? v.toString() : v)`). -/
def serializeArrayElem : Value → Value
  | .vBigInt n => .vStr (toString n)
  | v => v

mutual

/-- Per-entry treatment of `serializeDecodedData`: stringify a top-level
bigint, shallowly map an array, recurse into a plain object, copy
everything else. -/
def serializeValEntry : Value → Value
  | .vBigInt n => .vStr (toString n)
  | .vArr elems => .vArr (elems.map serializeArrayElem)
  | .vObj fields => .vObj (serializeDecodedData fields)
  | v => v

/-- `serializeDecodedData` (`decoders/index.ts`): apply the per-entry
treatment to every field of the decoded data object. -/
def serializeDecodedData : JsObj → JsObj
  | [] => []
  | (k, v) :: rest => (k, serializeValEntry v) :: serializeDecodedData rest

end

/-! ### Persistence rows and store (`sync.ts`, Prisma entities)

Timestamps are modelled as naturals; the `IndexerState` checkpoint value
is stored by the source as the decimal string of the height and read back
with `parseInt`, modelled by the round-tripped `Option Nat`. -/

structure BlockRow where
  height : Nat
  hash : String
  timestamp : Nat
  proposer : Option String
  txCount : Nat
  gasUsed : Int
  gasWanted : Int
  deriving DecidableEq, Repr

/-- One decoded message as stored on the Transaction row
(`processTransaction`, `sync.ts` lines 290–298). -/
structure StoredMessage where
  type : String
  typeName : String
  module : Option String
  data : JsObj

structure TxRow where
  hash : String
  blockHeight : Nat
  blockTime : Nat
  type : String
  messageTypes : List String
  messages : List StoredMessage
  fee : Value
  gasUsed : Int
  gasWanted : Int
  memo : Value
  status : String
  errorLog : Value
  signers : List String

structure EventRow where
  txHash : Option String
  blockHeight : Nat
  type : String
  attributes : List (String × String)

structure AccountRow where
  address : String
  txCount : Nat
  firstSeen : Nat
  lastSeen : Nat
  deriving DecidableEq, Repr

structure Store where
  blocks : List BlockRow
  txs : List TxRow
  events : List EventRow
  accounts : List AccountRow
  lastIndexedHeight : Option Nat

/-- The empty database. -/
def Store.empty : Store :=
  { blocks := [], txs := [], events := [], accounts := [], lastIndexedHeight := none }

/-- Prisma `upsert` on a list keyed by a unique predicate: update the
matching row in place, or append a freshly created one. -/
def upsertBy (p : α → Bool) (update : α → α) (create : α) (l : List α) : List α :=
  if l.any p then l.map (fun x => if p x then update x else x) else l ++ [create]

/-! ### The write operations of `processBlock` -/

/-- One store write issued by `processBlock`.  `upsertBlock` is the main
path's full-field upsert; `upsertBlockEmpty` is the empty-block fallback's
upsert, whose update branch touches only hash/timestamp/proposer/txCount. -/
inductive WriteOp where
  | upsertBlock (b : BlockRow)
  | upsertBlockEmpty (height : Nat) (hash : String) (timestamp : Nat) (proposer : Option String)
  | upsertTx (t : TxRow)
  | createEvent (e : EventRow)
  | upsertAccount (address : String) (blockTime : Nat)
  | setCheckpoint (height : Nat)

def applyWrite (st : Store) : WriteOp → Store
  | .upsertBlock b =>
    { st with blocks := upsertBy (fun r => r.height == b.height) (fun _ => b) b st.blocks }
  | .upsertBlockEmpty height hash timestamp proposer =>
    { st with blocks :=
        (upsertBy (fun r => r.height == height)
          (fun r => { r with hash := hash, timestamp := timestamp, proposer := proposer, txCount := 0 })
          { height := height, hash := hash, timestamp := timestamp, proposer := proposer
          , txCount := 0, gasUsed := 0, gasWanted := 0 }
          st.blocks) }
  | .upsertTx t =>
    { st with txs := upsertBy (fun r => r.hash == t.hash) (fun _ => t) t st.txs }
  | .createEvent e => { st with events := st.events ++ [e] }
  | .upsertAccount address blockTime =>
    { st with accounts :=
        (upsertBy (fun r => r.address == address)
          (fun r => { r with txCount := r.txCount + 1, lastSeen := blockTime })
          { address := address, txCount := 1, firstSeen := blockTime, lastSeen := blockTime }
          st.accounts) }
  | .setCheckpoint height => { st with lastIndexedHeight := some height }

def applyOps (st : Store) (ops : List WriteOp) : Store :=
  ops.foldl applyWrite st

/-- `prisma.$transaction`: the contained writes commit together, or a
failure inside rolls the whole unit back.  `failAt` injects a failure at
the given write index. -/
def runAtomic (st : Store) (ops : List WriteOp) (failAt : Option Nat) : Store :=
  match failAt with
  | none => applyOps st ops
  | some i => if i < ops.length then st else applyOps st ops

/-- Independent top-level statements (the empty-block fallback path): each
write commits on its own; a failure aborts the remainder, keeping the
writes already made. -/
def runSequential (st : Store) (ops : List WriteOp) (failAt : Option Nat) : Store :=
  match failAt with
  | none => applyOps st ops
  | some i => applyOps st (ops.take i)

/-! ### Account aggregation (`updateAccounts`, `sync.ts`) -/

/-- The address-extraction test: a string-valued field whose key contains
`"address"` case-insensitively or whose value starts with `"twilight"`. -/
def isAddressCandidate (k : String) (v : Value) : Option String :=
  match v with
  | .vStr s => if jsIncludes (jsToLower k) "address" || jsStartsWith s "twilight" then some s else none
  | _ => none

/-- JS `Set` insertion: first occurrence kept, insertion order preserved. -/
def addToSet (l : List String) (s : String) : List String :=
  if l.contains s then l else l ++ [s]

/-- The `addresses` set built by `updateAccounts`: every address-shaped
string field of every decoded message, deduplicated in insertion order. -/
def extractAddresses (transactions : List TxRow) : List String :=
  transactions.foldl
    (fun acc tx =>
      tx.messages.foldl
        (fun acc m =>
          m.data.foldl
            (fun acc kv =>
              match isAddressCandidate kv.1 kv.2 with
              | some s => addToSet acc s
              | none => acc)
            acc)
        acc)
    []

/-- The account upserts issued by `updateAccounts`: extracted addresses,
skipping falsy or shorter-than-10 strings. -/
def accountOps (transactions : List TxRow) (blockTime : Nat) : List WriteOp :=
  ((extractAddresses transactions).filter (fun a => !(a == "" || a.length < 10))).map
    (fun a => .upsertAccount a blockTime)

/-! ### The commit units of `processBlock` -/

/-- The writes of the main path's single `prisma.$transaction` unit, in
source order (`sync.ts` lines 156–203): Block upsert, Transaction
upserts, Event creates, Account upserts, Checkpoint advance. -/
def mainCommitOps (height : Nat) (block : BlockRow) (transactions : List TxRow)
    (events : List EventRow) (blockTime : Nat) : List WriteOp :=
  [WriteOp.upsertBlock block]
    ++ transactions.map WriteOp.upsertTx
    ++ events.map WriteOp.createEvent
    ++ accountOps transactions blockTime
    ++ [WriteOp.setCheckpoint height]

/-- The two separate statements of the empty-block fallback path
(`sync.ts` lines 229–246): Block upsert, then `setLastIndexedHeight`. -/
def fallbackOps (height : Nat) (hash : String) (timestamp : Nat)
    (proposer : Option String) : List WriteOp :=
  [WriteOp.upsertBlockEmpty height hash timestamp proposer, WriteOp.setCheckpoint height]

/-! ### LCD response shapes consumed by `processBlock` -/

structure SignerInfoIn where
  publicKeyKey : Option String

structure TxBodyIn where
  messages : List JsObj
  memo : Value

structure AuthInfoIn where
  signerInfos : List SignerInfoIn
  fee : Value

structure TxEventIn where
  type : String
  attributes : List (String × String)

/-- One entry of `tx_responses`.  `body`/`authInfo` model the resolved
`tx.tx?.body || tx.body` / `tx.tx?.auth_info || tx.auth_info` lookups. -/
structure TxResponseIn where
  txhash : Option String
  code : Int
  rawLog : Value
  gasUsed : Value
  gasWanted : Value
  body : Option TxBodyIn
  authInfo : Option AuthInfoIn
  events : Option (List TxEventIn)

structure BlockHeaderIn where
  time : Nat
  proposerAddress : Option String
  lastBlockIdHash : Option String

structure BlockInfoIn where
  blockIdHash : String
  header : BlockHeaderIn

/-- An error thrown by an LCD fetch; `status` is
`(error as any)?.response?.status`. -/
structure FetchError where
  message : String
  status : Option Nat

/-- `header.proposer_address || null`. -/
def proposerOrNull (p : Option String) : Option String :=
  match p with
  | some s => if s != "" then some s else none
  | none => none

/-- The attribute `reduce`: later attributes with the same key overwrite
earlier ones, first-insertion key order preserved. -/
def attrsToMap (attrs : List (String × String)) : List (String × String) :=
  attrs.foldl
    (fun acc kv =>
      if acc.any (fun e => e.1 == kv.1) then
        acc.map (fun e => if e.1 == kv.1 then (e.1, kv.2) else e)
      else acc ++ [kv])
    []

/-! ### `processTransaction` (`sync.ts` lines 262–315) -/

/-- `processTransaction`: derive the Transaction row from one
`tx_responses` entry.  The `BigInt` gas coercions can throw, which
propagates to `processBlock`'s outer catch. -/
def processTransaction (tx : TxResponseIn) (blockHeight : Nat) (blockTime : Nat) :
    Except String TxRow := do
  let messages := match tx.body with | some b => b.messages | none => []
  let messageTypes := messages.map typeOf
  let primaryType :=
    match messageTypes with
    | [] => "unknown"
    | t :: _ => if t != "" then t else "unknown"
  let signers :=
    match tx.authInfo with
    | some ai =>
      ai.signerInfos.foldl
        (fun acc si =>
          match si.publicKeyKey with
          | some k => if k != "" then acc ++ [k] else acc
          | none => acc)
        []
    | none => []
  let decodedMessages := messages.map (fun m =>
    let decoded := decodeMessage m
    ({ type := decoded.type
     , typeName := decoded.typeName
     , module := decoded.module
     , data := serializeDecodedData decoded.data } : StoredMessage))
  let gasUsed ← jsBigInt (jsOr tx.gasUsed (.vStr "0"))
  let gasWanted ← jsBigInt (jsOr tx.gasWanted (.vStr "0"))
  pure
    { hash := tx.txhash.getD ""
    , blockHeight := blockHeight
    , blockTime := blockTime
    , type := primaryType
    , messageTypes := messageTypes
    , messages := decodedMessages
    , fee := (match tx.authInfo with | some ai => jsOr ai.fee .vNull | none => .vNull)
    , gasUsed := gasUsed
    , gasWanted := gasWanted
    , memo := (match tx.body with | some b => jsOr b.memo .vNull | none => .vNull)
    , status := if tx.code == 0 then "success" else "failed"
    , errorLog := if tx.code != 0 then tx.rawLog else .vNull
    , signers := signers }

/-- The event rows extracted from one transaction response
(`sync.ts` lines 136–151). -/
def eventsOf (tx : TxResponseIn) (height : Nat) : List EventRow :=
  match tx.events with
  | some evs =>
    evs.map (fun e =>
      { txHash := tx.txhash
      , blockHeight := height
      , type := e.type
      , attributes := attrsToMap e.attributes })
  | none => []

/-- The per-transaction loop of `processBlock`: skip entries with a falsy
`txhash`, process the rest in order, aggregate gas, and collect event
rows.  Returns rows, events, and the two gas totals, or the first
processing error. -/
def buildTxData (height : Nat) (blockTime : Nat) :
    List TxResponseIn → Except String (List TxRow × List EventRow × Int × Int)
  | [] => .ok ([], [], 0, 0)
  | tx :: rest =>
    match tx.txhash with
    | some h =>
      if h != "" then do
        let row ← processTransaction tx height blockTime
        let (rows, evs, gu, gw) ← buildTxData height blockTime rest
        .ok (row :: rows, eventsOf tx height ++ evs, row.gasUsed + gu, row.gasWanted + gw)
      else buildTxData height blockTime rest
    | none => buildTxData height blockTime rest

/-! ### `processBlock` (`sync.ts` lines 66–260) -/

/-- The observable outcome of one `processBlock` call.  `stopRequested`
is the engine's halt flag (set by the reorg branch); `errored` carries an
exception propagated to the sync loop; `linkageChecked` is a ghost flag
recording that the previous-hash comparison was actually evaluated. -/
structure ProcessBlockResult where
  store : Store
  stopRequested : Bool
  errored : Option String
  emittedBlockNew : Bool
  emittedTxNew : Nat
  linkageChecked : Bool

/-- `processBlock`, success semantics (failure injection into the commit
units is modelled separately by `runAtomic`/`runSequential` over
`mainCommitOps`/`fallbackOps`).  `blockFetch1` is the `getBlockByHeight`
call at the top of the `try`; `blockFetch2` is the second call inside the
400-fallback `catch`; `txFetch` is the `getTxsByHeight` call, whose
errors the inner catch turns into an empty transaction list. -/
def processBlock (st : Store) (height : Nat)
    (blockFetch1 : Except FetchError BlockInfoIn)
    (blockFetch2 : Except FetchError BlockInfoIn)
    (txFetch : Except FetchError (List TxResponseIn)) : ProcessBlockResult :=
  match blockFetch1 with
  | .error e =>
    if e.status == some 400 then
      match blockFetch2 with
      | .ok bi =>
        { store := applyOps st
            (fallbackOps height bi.blockIdHash bi.header.time
              (proposerOrNull bi.header.proposerAddress))
        , stopRequested := false
        , errored := none
        , emittedBlockNew := true
        , emittedTxNew := 0
        , linkageChecked := false }
      | .error e2 =>
        { store := st, stopRequested := false, errored := some e2.message
        , emittedBlockNew := false, emittedTxNew := 0, linkageChecked := false }
    else
      { store := st, stopRequested := false, errored := some e.message
      , emittedBlockNew := false, emittedTxNew := 0, linkageChecked := false }
  | .ok blockInfo =>
    let expectedPrevHash := blockInfo.header.lastBlockIdHash
    let checked : Bool × Bool :=
      if height > 1 then
        match expectedPrevHash with
        | some ph =>
          if ph != "" then
            match st.blocks.find? (fun b => b.height == height - 1) with
            | some prevBlock => (true, prevBlock.hash != ph)
            | none => (false, false)
          else (false, false)
        | none => (false, false)
      else (false, false)
    if checked.2 then
      { store := st, stopRequested := true, errored := none
      , emittedBlockNew := false, emittedTxNew := 0, linkageChecked := true }
    else
      let txResponses := match txFetch with | .ok l => l | .error _ => []
      match buildTxData height blockInfo.header.time txResponses with
      | .error err =>
        { store := st, stopRequested := false, errored := some err
        , emittedBlockNew := false, emittedTxNew := 0, linkageChecked := checked.1 }
      | .ok (rows, events, gasUsed, gasWanted) =>
        let block : BlockRow :=
          { height := height
          , hash := blockInfo.blockIdHash
          , timestamp := blockInfo.header.time
          , proposer := proposerOrNull blockInfo.header.proposerAddress
          , txCount := txResponses.length
          , gasUsed := gasUsed
          , gasWanted := gasWanted }
        { store := applyOps st (mainCommitOps height block rows events blockInfo.header.time)
        , stopRequested := false
        , errored := none
        , emittedBlockNew := true
        , emittedTxNew := rows.length
        , linkageChecked := checked.1 }

/-! ### Checkpoint invariant (`sync.ts` state management, spec §3) -/

/-- `getLastIndexedHeight`: the stored checkpoint, or
`config.startHeight - 1` when no `IndexerState` row exists yet. -/
def checkpointOf (st : Store) (startHeight : Nat) : Nat :=
  match st.lastIndexedHeight with
  | some c => c
  | none => startHeight - 1

/-- The Block/Checkpoint consistency invariant: every Block row lies
between the first ingested height and the checkpoint, and every height
from the first ingested height up to the checkpoint has a Block row. -/
def storeInvariant (startHeight : Nat) (st : Store) : Bool :=
  st.blocks.all (fun b => decide (startHeight ≤ b.height) && decide (b.height ≤ checkpointOf st startHeight))
    && (List.range' startHeight (checkpointOf st startHeight + 1 - startHeight)).all
        (fun h => st.blocks.any (fun b => b.height == h))

/-! ### zkOS external decode API (`decoders/zkos.ts`) -/

/-- The structured decode result, with the summary fields the enrichment
worker reads (`decoded?.summary?.program_type`, `decoded?.tx_type`). -/
structure DecodedZkosTransaction where
  inputs : List Value
  outputs : List Value
  summaryProgramType : Option String
  txType : Option String

/-- `decodeZkosTransactionFromApi`: the whole body sits in a
`try`/`catch` whose catch logs and returns `null`; a successful HTTP
response returns `response.data` when truthy and `null` otherwise (the
`Option` in the success payload models `response.data` truthiness). -/
def decodeZkosTransactionFromApi
    (apiResult : Except String (Option DecodedZkosTransaction)) :
    Option DecodedZkosTransaction :=
  match apiResult with
  | .ok (some d) => some d
  | .ok none => none
  | .error _ => none

/-! ### Enrichment worker (`enrichment.ts`) -/

def MAX_ATTEMPTS : Nat := 5

/-- A `ZkosTransfer` row, restricted to the fields the enrichment worker
reads and writes. -/
structure ZkosTransferRow where
  zkTxId : String
  txByteCode : String
  decodeStatus : String
  decodeAttempts : Nat
  lastDecodeError : Option String
  decodedData : Option DecodedZkosTransaction
  inputs : Option (List Value)
  outputs : Option (List Value)
  programType : Option String

/-- A freshly ingested transfer as created by `processCustomMessages`:
`decodeStatus: 'pending'` with only the raw payload populated. -/
def freshTransfer (zkTxId txByteCode : String) : ZkosTransferRow :=
  { zkTxId := zkTxId, txByteCode := txByteCode
  , decodeStatus := "pending", decodeAttempts := 0, lastDecodeError := none
  , decodedData := none, inputs := none, outputs := none, programType := none }

/-- The worker's selection filter:
`decodeStatus = 'pending' AND decodeAttempts < MAX_ATTEMPTS`. -/
def selectedForEnrichment (r : ZkosTransferRow) : Bool :=
  r.decodeStatus == "pending" && r.decodeAttempts < MAX_ATTEMPTS

/-- `decoded?.summary?.program_type || decoded?.tx_type || null`. -/
def programTypeOf (d : DecodedZkosTransaction) : Option String :=
  let fromSummary := match d.summaryProgramType with
    | some s => if s != "" then some s else none
    | none => none
  match fromSummary with
  | some s => some s
  | none =>
    match d.txType with
    | some t => if t != "" then some t else none
    | none => none

/-- Outcome of one decode call for one record: a truthy decode result,
a null result, or a thrown transport/parse error. -/
inductive DecodeOutcome where
  | ok (d : DecodedZkosTransaction)
  | nullResult
  | threw (err : String)

def DecodeOutcome.isFailure : DecodeOutcome → Bool
  | .ok _ => false
  | .nullResult => true
  | .threw _ => true

/-- The per-record update of one enrichment cycle
(`enrichment.ts` lines 51–98). -/
def enrichRecordStep (r : ZkosTransferRow) : DecodeOutcome → ZkosTransferRow
  | .ok d =>
    { r with
      decodedData := some d
    , inputs := some d.inputs
    , outputs := some d.outputs
    , programType := programTypeOf d
    , decodeStatus := "ok"
    , decodeAttempts := r.decodeAttempts + 1
    , lastDecodeError := none }
  | .nullResult =>
    let attempts := r.decodeAttempts + 1
    { r with
      decodeAttempts := attempts
    , decodeStatus := if attempts ≥ MAX_ATTEMPTS then "failed" else "pending"
    , lastDecodeError := some "Decode API returned null" }
  | .threw err =>
    let attempts := r.decodeAttempts + 1
    { r with
      decodeAttempts := attempts
    , decodeStatus := if attempts ≥ MAX_ATTEMPTS then "failed" else "pending"
    , lastDecodeError := some err }

/-- One record's life under the polling worker: each poll cycle processes
the record only while the selection filter still matches it; once
unselected it is never touched again. -/
def runEnrichment (r : ZkosTransferRow) : List DecodeOutcome → ZkosTransferRow
  | [] => r
  | o :: rest =>
    if selectedForEnrichment r then runEnrichment (enrichRecordStep r o) rest
    else r

/-- The worker's decode step as driven by the external API: the outcome
fed to `enrichRecordStep` is determined by the (never-throwing)
`decodeZkosTransactionFromApi`. -/
def outcomeOfApi (apiResult : Except String (Option DecodedZkosTransaction)) : DecodeOutcome :=
  match decodeZkosTransactionFromApi apiResult with
  | some d => .ok d
  | none => .nullResult

/-! ## Theorems -/

/-- C1: for a height above 1 whose fetched header carries a
`last_block_id` hash differing from the hash of the stored Block at the
previous height, `processBlock` performs no store write at all and sets
the engine's stop flag, halting forward progress. -/
theorem processBlock_reorg_halts_without_write
    (st : Store) (height : Nat) (blockInfo : BlockInfoIn)
    (bf2 : Except FetchError BlockInfoIn) (txFetch : Except FetchError (List TxResponseIn))
    (prevBlock : BlockRow) (ph : String)
    (hgt : 1 < height)
    (hhash : blockInfo.header.lastBlockIdHash = some ph)
    (hne : ph ≠ "")
    (hprev : st.blocks.find? (fun b => b.height == height - 1) = some prevBlock)
    (hmismatch : prevBlock.hash ≠ ph) :
    (processBlock st height (.ok blockInfo) bf2 txFetch).store = st ∧
    (processBlock st height (.ok blockInfo) bf2 txFetch).stopRequested = true ∧
    (processBlock st height (.ok blockInfo) bf2 txFetch).emittedBlockNew = false ∧
    (processBlock st height (.ok blockInfo) bf2 txFetch).emittedTxNew = 0 := by
  simp only [processBlock, hhash, hprev, hgt, if_true, bne_iff_ne, ne_eq, hne,
    not_false_eq_true, hmismatch, if_pos]
  simp [hgt, hne, hmismatch]

/-- Witness for C1: a stored Block 1 with hash `"AA"` and a header for
height 2 carrying previous hash `"BB"` leave the store untouched and stop
the engine. -/
theorem processBlock_reorg_halts_without_write_witness :
    (processBlock
      { Store.empty with blocks := [{ height := 1, hash := "AA", timestamp := 10
                                    , proposer := none, txCount := 0, gasUsed := 0, gasWanted := 0 }] }
      2
      (.ok { blockIdHash := "CC"
           , header := { time := 20, proposerAddress := none, lastBlockIdHash := some "BB" } })
      (.error { message := "unused", status := none })
      (.ok [])).store =
      { Store.empty with blocks := [{ height := 1, hash := "AA", timestamp := 10
                                    , proposer := none, txCount := 0, gasUsed := 0, gasWanted := 0 }] } ∧
    (processBlock
      { Store.empty with blocks := [{ height := 1, hash := "AA", timestamp := 10
                                    , proposer := none, txCount := 0, gasUsed := 0, gasWanted := 0 }] }
      2
      (.ok { blockIdHash := "CC"
           , header := { time := 20, proposerAddress := none, lastBlockIdHash := some "BB" } })
      (.error { message := "unused", status := none })
      (.ok [])).stopRequested = true ∧
    (processBlock
      { Store.empty with blocks := [{ height := 1, hash := "AA", timestamp := 10
                                    , proposer := none, txCount := 0, gasUsed := 0, gasWanted := 0 }] }
      2
      (.ok { blockIdHash := "CC"
           , header := { time := 20, proposerAddress := none, lastBlockIdHash := some "BB" } })
      (.error { message := "unused", status := none })
      (.ok [])).emittedBlockNew = false ∧
    (processBlock
      { Store.empty with blocks := [{ height := 1, hash := "AA", timestamp := 10
                                    , proposer := none, txCount := 0, gasUsed := 0, gasWanted := 0 }] }
      2
      (.ok { blockIdHash := "CC"
           , header := { time := 20, proposerAddress := none, lastBlockIdHash := some "BB" } })
      (.error { message := "unused", status := none })
      (.ok [])).emittedTxNew = 0 :=
  processBlock_reorg_halts_without_write _ 2 _ _ _ _ "BB"
    (by decide) rfl (by decide) rfl (by decide)

/-- C7 counterexample: at height 2 (≠ 1), with a header that does carry a
previous-block hash but with no stored Block at height 1, the linkage
comparison is skipped and the block is committed anyway — the check is
not performed at every height above 1. -/
theorem linkage_check_skipped_at_height_two :
    (processBlock Store.empty 2
      (Except.ok { blockIdHash := "AA"
                 , header := { time := 50, proposerAddress := none, lastBlockIdHash := some "BB" } })
      (Except.error { message := "unused", status := none })
      (Except.ok [])).linkageChecked = false ∧
    (processBlock Store.empty 2
      (Except.ok { blockIdHash := "AA"
                 , header := { time := 50, proposerAddress := none, lastBlockIdHash := some "BB" } })
      (Except.error { message := "unused", status := none })
      (Except.ok [])).emittedBlockNew = true := by
  constructor <;> rfl

/-- C7 amended: the previous-hash comparison is performed exactly when
the height exceeds 1, the header carries a non-empty `last_block_id`
hash, and a Block row is stored at the previous height; it is skipped in
every other case (in particular not only at height 1). -/
theorem linkage_check_condition
    (st : Store) (height : Nat) (blockInfo : BlockInfoIn)
    (bf2 : Except FetchError BlockInfoIn) (txFetch : Except FetchError (List TxResponseIn)) :
    (processBlock st height (.ok blockInfo) bf2 txFetch).linkageChecked =
      (decide (1 < height) &&
        (match blockInfo.header.lastBlockIdHash with
         | some ph => (ph != "") && (st.blocks.find? (fun b => b.height == height - 1)).isSome
         | none => false)) := by
  by_cases hgt : 1 < height
  · cases hh : blockInfo.header.lastBlockIdHash with
    | none =>
      simp [processBlock, hgt, hh]
      split <;> rfl
    | some ph =>
      by_cases hne : ph = ""
      · subst hne
        simp [processBlock, hgt, hh]
        split <;> rfl
      · cases hprev : st.blocks.find? (fun b => b.height == height - 1) with
        | none =>
          simp [processBlock, hgt, hh, hprev, hne]
          split <;> rfl
        | some prevBlock =>
          by_cases hm : prevBlock.hash = ph
          · have hbne : (ph != "") = true := by simp [bne_iff_ne, hne]
            simp [processBlock, hgt, hh, hprev, hbne, hm]
            split <;> rfl
          · simp [processBlock, hgt, hh, hprev, hne, hm]
  · simp [processBlock, hgt]
    split <;> rfl

/-- C10: `decodeZkosTransactionFromApi` swallows every thrown
transport/timeout/HTTP/parse failure and returns `null`; consequently the
enrichment worker handles every decode-API failure through the
null-result branch, never through its catch branch. -/
theorem decode_api_failure_returns_null (e : String) (r : ZkosTransferRow) :
    decodeZkosTransactionFromApi (.error e) = none ∧
    outcomeOfApi (.error e) = .nullResult ∧
    enrichRecordStep r (outcomeOfApi (.error e)) = enrichRecordStep r .nullResult := by
  exact ⟨rfl, rfl, rfl⟩




/-- A record the selection filter rejects is never touched again. -/
theorem runEnrichment_unselected (r : ZkosTransferRow) (l : List DecodeOutcome)
    (h : selectedForEnrichment r = false) : runEnrichment r l = r := by
  cases l with
  | nil => rfl
  | cons o rest => simp [runEnrichment, h]

/-- Poll cycles compose: running the worker over a concatenated outcome
sequence processes the two parts in order. -/
theorem runEnrichment_append (l1 l2 : List DecodeOutcome) :
    ∀ r : ZkosTransferRow,
      runEnrichment r (l1 ++ l2) = runEnrichment (runEnrichment r l1) l2 := by
  induction l1 with
  | nil => intro r; rfl
  | cons o rest ih =>
    intro r
    by_cases hs : selectedForEnrichment r
    · simp [runEnrichment, hs, ih]
    · simp only [Bool.not_eq_true] at hs
      simp [runEnrichment, hs, runEnrichment_unselected _ l2 hs]

/-- Failure accounting for a pending record: attempts accumulate up to
the cap of 5, at which point the status flips to `failed`. -/
theorem runEnrichment_all_failures (fails : List DecodeOutcome) :
    ∀ r : ZkosTransferRow, (∀ x ∈ fails, x.isFailure = true) →
      r.decodeStatus = "pending" → r.decodeAttempts < 5 →
      (if r.decodeAttempts + fails.length < 5 then
        (runEnrichment r fails).decodeStatus = "pending" ∧
        (runEnrichment r fails).decodeAttempts = r.decodeAttempts + fails.length
       else
        (runEnrichment r fails).decodeStatus = "failed" ∧
        (runEnrichment r fails).decodeAttempts = 5) := by
  induction fails with
  | nil =>
    intro r _ hp ha
    simp [runEnrichment, ha, hp]
  | cons o rest ih =>
    intro r hall hp ha
    have hsel : selectedForEnrichment r = true := by
      simp [selectedForEnrichment, hp, ha, MAX_ATTEMPTS]
    have hof : o.isFailure = true := hall o (List.mem_cons_self o rest)
    have hrest : ∀ x ∈ rest, x.isFailure = true := fun x hx => hall x (List.mem_cons_of_mem o hx)
    rw [show runEnrichment r (o :: rest) = runEnrichment (enrichRecordStep r o) rest from by
      simp [runEnrichment, hsel]]
    have hstep : (enrichRecordStep r o).decodeAttempts = r.decodeAttempts + 1 ∧
        (enrichRecordStep r o).decodeStatus =
          (if r.decodeAttempts + 1 ≥ MAX_ATTEMPTS then "failed" else "pending") ∧
        (enrichRecordStep r o).lastDecodeError.isSome = true := by
      cases o with
      | ok d => simp [DecodeOutcome.isFailure] at hof
      | nullResult => simp [enrichRecordStep]
      | threw e => simp [enrichRecordStep]
    by_cases hlt : r.decodeAttempts + 1 < 5
    · have hstat : (enrichRecordStep r o).decodeStatus = "pending" := by
        rw [hstep.2.1, if_neg (by simp [MAX_ATTEMPTS]; omega)]
      have hatts : (enrichRecordStep r o).decodeAttempts < 5 := by rw [hstep.1]; exact hlt
      have h2 := ih (enrichRecordStep r o) hrest hstat hatts
      rw [hstep.1] at h2
      by_cases hcond : r.decodeAttempts + (rest.length + 1) < 5
      · rw [if_pos (by simpa [List.length_cons] using hcond)]
        rw [if_pos (by omega)] at h2
        exact ⟨h2.1, by rw [h2.2, List.length_cons]; omega⟩
      · rw [if_neg (by simpa [List.length_cons] using hcond)]
        rw [if_neg (by omega)] at h2
        exact h2
    · have hfive : r.decodeAttempts + 1 = 5 := by omega
      have hstat : (enrichRecordStep r o).decodeStatus = "failed" := by
        rw [hstep.2.1, if_pos (by simp [MAX_ATTEMPTS]; omega)]
      have hout : runEnrichment (enrichRecordStep r o) rest = enrichRecordStep r o :=
        runEnrichment_unselected _ _ (by simp [selectedForEnrichment, hstat])
      rw [hout]
      rw [if_neg (by simp [List.length_cons]; omega)]
      exact ⟨hstat, by rw [hstep.1, hfive]⟩



/-- C4: a pending record that always fails decoding stays `pending` below
5 failed attempts, reaches `failed` at exactly 5 attempts — never fewer,
never more — and is never selected or modified again; a record failing 4
times and then succeeding ends `ok` with 5 attempts and a cleared last
error. -/
theorem enrichment_bounded_retries (zkTxId txByteCode : String)
    (fails : List DecodeOutcome) (hf : ∀ x ∈ fails, x.isFailure = true) :
    (fails.length < 5 →
      (runEnrichment (freshTransfer zkTxId txByteCode) fails).decodeStatus = "pending" ∧
      (runEnrichment (freshTransfer zkTxId txByteCode) fails).decodeAttempts = fails.length) ∧
    (5 ≤ fails.length →
      (runEnrichment (freshTransfer zkTxId txByteCode) fails).decodeStatus = "failed" ∧
      (runEnrichment (freshTransfer zkTxId txByteCode) fails).decodeAttempts = 5 ∧
      selectedForEnrichment (runEnrichment (freshTransfer zkTxId txByteCode) fails) = false ∧
      ∀ more : List DecodeOutcome,
        runEnrichment (runEnrichment (freshTransfer zkTxId txByteCode) fails) more =
          runEnrichment (freshTransfer zkTxId txByteCode) fails) ∧
    (fails.length = 4 → ∀ d : DecodedZkosTransaction,
      (runEnrichment (freshTransfer zkTxId txByteCode) (fails ++ [DecodeOutcome.ok d])).decodeStatus = "ok" ∧
      (runEnrichment (freshTransfer zkTxId txByteCode) (fails ++ [DecodeOutcome.ok d])).decodeAttempts = 5 ∧
      (runEnrichment (freshTransfer zkTxId txByteCode) (fails ++ [DecodeOutcome.ok d])).lastDecodeError = none) := by
  have hmain := runEnrichment_all_failures fails (freshTransfer zkTxId txByteCode) hf rfl
    (by simp [freshTransfer])
  rw [show (freshTransfer zkTxId txByteCode).decodeAttempts = 0 from rfl] at hmain
  simp only [Nat.zero_add] at hmain
  refine ⟨fun hlt => ?_, fun hge => ?_, fun h4 d => ?_⟩
  · rw [if_pos hlt] at hmain
    exact hmain
  · rw [if_neg (by omega)] at hmain
    have hfail : (runEnrichment (freshTransfer zkTxId txByteCode) fails).decodeStatus = "failed" :=
      hmain.1
    have hunsel : selectedForEnrichment (runEnrichment (freshTransfer zkTxId txByteCode) fails) = false := by
      simp [selectedForEnrichment, hfail]
    exact ⟨hmain.1, hmain.2, hunsel, fun more => runEnrichment_unselected _ more hunsel⟩
  · rw [if_pos (by omega)] at hmain
    have hpend := hmain.1
    have hatt := hmain.2
    rw [runEnrichment_append]
    have hsel : selectedForEnrichment (runEnrichment (freshTransfer zkTxId txByteCode) fails) = true := by
      simp [selectedForEnrichment, hpend, hatt, h4, MAX_ATTEMPTS]
    rw [show runEnrichment (runEnrichment (freshTransfer zkTxId txByteCode) fails) [DecodeOutcome.ok d]
        = enrichRecordStep (runEnrichment (freshTransfer zkTxId txByteCode) fails) (DecodeOutcome.ok d) from by
      simp [runEnrichment, hsel]]
    simp [enrichRecordStep, hatt, h4]

/-- Witness for C4: five straight failures end at `failed` with exactly 5
attempts; four failures then a success end at `ok` with 5 attempts. -/
theorem enrichment_bounded_retries_witness :
    (runEnrichment (freshTransfer "zk1" "aabb")
      [DecodeOutcome.nullResult, DecodeOutcome.nullResult, DecodeOutcome.nullResult,
       DecodeOutcome.nullResult, DecodeOutcome.nullResult]).decodeStatus = "failed" ∧
    (runEnrichment (freshTransfer "zk1" "aabb")
      [DecodeOutcome.nullResult, DecodeOutcome.nullResult, DecodeOutcome.nullResult,
       DecodeOutcome.nullResult, DecodeOutcome.nullResult]).decodeAttempts = 5 :=
  let h := enrichment_bounded_retries "zk1" "aabb"
    [DecodeOutcome.nullResult, DecodeOutcome.nullResult, DecodeOutcome.nullResult,
     DecodeOutcome.nullResult, DecodeOutcome.nullResult]
    (by intro x hx; fin_cases hx <;> rfl)
  ⟨(h.2.1 (by decide)).1, (h.2.1 (by decide)).2.1⟩

/-- An upsert leaves a row matching its key predicate in the list. -/
theorem upsertBy_any (p : α → Bool) (update : α → α) (create : α) (l : List α)
    (hu : ∀ x, p x = true → p (update x) = true) (hc : p create = true) :
    (upsertBy p update create l).any p = true := by
  unfold upsertBy
  split
  · rename_i hany
    rw [List.any_eq_true] at hany ⊢
    obtain ⟨x, hx, hpx⟩ := hany
    exact ⟨if p x then update x else x, List.mem_map_of_mem _ hx, by simp [hpx, hu x hpx]⟩
  · simp [hc]

/-- C2 counterexample: on the empty-block fallback path a failure of the
checkpoint statement leaves the Block written but the Checkpoint not
advanced — a state equal neither to the initial store nor to the fully
committed one, so the unit is not all-or-nothing. -/
theorem fallback_commit_not_atomic :
    (runSequential Store.empty (fallbackOps 5 "h5" 100 none) (some 1)).blocks.length = 1 ∧
    (runSequential Store.empty (fallbackOps 5 "h5" 100 none) (some 1)).lastIndexedHeight = none ∧
    (applyOps Store.empty (fallbackOps 5 "h5" 100 none)).lastIndexedHeight = some 5 :=
  ⟨rfl, rfl, rfl⟩

/-- C2 amended: the main path's commit — Block upsert, Transaction
upserts, Event inserts, Account updates and the Checkpoint advance — is
one all-or-nothing `prisma.$transaction` unit; the empty-block fallback
path instead issues the Block upsert and the Checkpoint advance as two
separate statements, but even there the Checkpoint is advanced only
after the Block row has been persisted. -/
theorem atomic_commit_amended
    (st : Store) (height : Nat) (block : BlockRow) (transactions : List TxRow)
    (events : List EventRow) (blockTime : Nat) (failAt : Option Nat)
    (hash : String) (timestamp : Nat) (proposer : Option String) :
    (runAtomic st (mainCommitOps height block transactions events blockTime) failAt = st ∨
     runAtomic st (mainCommitOps height block transactions events blockTime) failAt =
       applyOps st (mainCommitOps height block transactions events blockTime)) ∧
    ((runSequential st (fallbackOps height hash timestamp proposer) failAt).lastIndexedHeight ≠
        st.lastIndexedHeight →
      (runSequential st (fallbackOps height hash timestamp proposer) failAt).lastIndexedHeight =
        some height ∧
      (runSequential st (fallbackOps height hash timestamp proposer) failAt).blocks.any
        (fun b => b.height == height) = true) := by
  constructor
  · unfold runAtomic
    cases failAt with
    | none => exact Or.inr rfl
    | some i =>
      by_cases hi : i < (mainCommitOps height block transactions events blockTime).length
      · exact Or.inl (by simp [hi])
      · exact Or.inr (by simp [hi])
  · intro hchanged
    have hfull : ∀ st0 : Store,
        (applyOps st0 (fallbackOps height hash timestamp proposer)).lastIndexedHeight = some height ∧
        (applyOps st0 (fallbackOps height hash timestamp proposer)).blocks.any
          (fun b => b.height == height) = true := by
      intro st0
      constructor
      · rfl
      · show (applyWrite (applyWrite st0 (.upsertBlockEmpty height hash timestamp proposer))
            (.setCheckpoint height)).blocks.any (fun b => b.height == height) = true
        have : (applyWrite (applyWrite st0 (.upsertBlockEmpty height hash timestamp proposer))
            (.setCheckpoint height)).blocks =
            (applyWrite st0 (.upsertBlockEmpty height hash timestamp proposer)).blocks := rfl
        rw [this]
        exact upsertBy_any _ _ _ _ (fun x hx => hx) (by simp)
    cases failAt with
    | none => exact hfull st
    | some i =>
      match i with
      | 0 => exact absurd rfl hchanged
      | 1 => exact absurd rfl hchanged
      | (n + 2) =>
        have hrun : runSequential st (fallbackOps height hash timestamp proposer) (some (n + 2)) =
            applyOps st (fallbackOps height hash timestamp proposer) := by
          simp [runSequential, fallbackOps, List.take_succ_cons]
        rw [hrun]
        exact hfull st

/-- Witness for C2 amended: a completed fallback run on the empty store
advances the checkpoint to 7 and has the Block row for height 7. -/
theorem atomic_commit_amended_witness :
    (runSequential Store.empty (fallbackOps 7 "hh" 3 none) none).lastIndexedHeight = some 7 ∧
    (runSequential Store.empty (fallbackOps 7 "hh" 3 none) none).blocks.any
      (fun b => b.height == 7) = true :=
  (atomic_commit_amended Store.empty 7
      { height := 7, hash := "hh", timestamp := 3, proposer := none
      , txCount := 0, gasUsed := 0, gasWanted := 0 }
      [] [] 3 none "hh" 3 none).2 (by decide)

/-- Replacing rows by an address-preserving update never changes the
lookup of a different address. -/
theorem find_map_update_ne (l : List AccountRow) (b : String) (t : Nat) (a : String)
    (hne : (b == a) = false) :
    (l.map fun x => if x.address == b
        then { x with txCount := x.txCount + 1, lastSeen := t } else x).find?
      (fun r => r.address == a) = l.find? (fun r => r.address == a) := by
  induction l with
  | nil => rfl
  | cons x xs ih =>
    simp only [List.map_cons]
    by_cases hxb : (x.address == b) = true
    · rw [if_pos hxb]
      have hxa : (x.address == a) = false := by
        rw [beq_iff_eq] at hxb
        rw [beq_eq_false_iff_ne] at hne ⊢
        rw [hxb]
        exact hne
      have hupd : (({ x with txCount := x.txCount + 1, lastSeen := t } : AccountRow).address == a)
          = false := hxa
      simp only [List.find?_cons, hupd, hxa]
      exact ih
    · rw [if_neg hxb]
      by_cases hx : (x.address == a) = true
      · simp only [List.find?_cons, hx]
      · rw [Bool.not_eq_true] at hx
        simp only [List.find?_cons, hx]
        exact ih

/-- Appending a row that fails the lookup predicate never changes the
lookup. -/
theorem find_append_single (l : List α) (c : α) (q : α → Bool) (hc : q c = false) :
    (l ++ [c]).find? q = l.find? q := by
  induction l with
  | nil => simp [List.find?, hc]
  | cons x xs ih =>
    by_cases hx : q x = true
    · simp [List.find?_cons, hx]
    · simp only [List.cons_append, List.find?_cons]
      rw [Bool.not_eq_true] at hx
      simp [hx, ih]

/-- An account upsert for one address leaves the row of any other address
untouched. -/
theorem find_account_upsert_ne (st : Store) (b : String) (t : Nat) (a : String)
    (hne : (b == a) = false) :
    (applyWrite st (.upsertAccount b t)).accounts.find? (fun r => r.address == a) =
      st.accounts.find? (fun r => r.address == a) := by
  simp only [applyWrite, upsertBy]
  split
  · exact find_map_update_ne st.accounts b t a hne
  · exact find_append_single st.accounts _ _ (by simpa using hne)

/-- Account upserts for addresses all different from `a` leave the row of
`a` untouched. -/
theorem find_account_applyOps_ne (addrs : List String) (t : Nat) (a : String) :
    ∀ st : Store, (∀ b ∈ addrs, (b == a) = false) →
      (applyOps st (addrs.map fun b => WriteOp.upsertAccount b t)).accounts.find?
          (fun r => r.address == a) =
        st.accounts.find? (fun r => r.address == a) := by
  induction addrs with
  | nil => intro st _; rfl
  | cons x xs ih =>
    intro st h
    have hx := h x (List.mem_cons_self x xs)
    have hxs : ∀ b ∈ xs, (b == a) = false := fun b hb => h b (List.mem_cons_of_mem x hb)
    show (applyOps (applyWrite st (.upsertAccount x t)) (xs.map fun b => WriteOp.upsertAccount b t)).accounts.find?
        (fun r => r.address == a) = _
    rw [ih _ hxs, find_account_upsert_ne st x t a hx]

/-- One account upsert cannot remove another address's presence. -/
theorem any_account_preserved (st : Store) (x : String) (t : Nat) (b : String)
    (h : st.accounts.any (fun r => r.address == b) = true) :
    (applyWrite st (.upsertAccount x t)).accounts.any (fun r => r.address == b) = true := by
  simp only [applyWrite, upsertBy]
  split
  · rw [List.any_eq_true] at h ⊢
    obtain ⟨r, hr, hq⟩ := h
    refine ⟨if r.address == x then { r with txCount := r.txCount + 1, lastSeen := t } else r,
      List.mem_map_of_mem _ hr, ?_⟩
    by_cases hrx : (r.address == x) = true <;> simp [hrx, hq]
  · rw [List.any_eq_true] at h ⊢
    obtain ⟨r, hr, hq⟩ := h
    exact ⟨r, List.mem_append_left _ hr, hq⟩

/-- After upserting a batch of addresses, every address of the batch has
an Account row. -/
theorem any_account_after_upserts (addrs : List String) (t : Nat) (b : String) :
    ∀ st : Store,
      (b ∈ addrs ∨ st.accounts.any (fun r => r.address == b) = true) →
      (applyOps st (addrs.map fun x => WriteOp.upsertAccount x t)).accounts.any
        (fun r => r.address == b) = true := by
  induction addrs with
  | nil =>
    intro st hb
    exact hb.resolve_left (by simp)
  | cons x xs ih =>
    intro st hb
    show (applyOps (applyWrite st (.upsertAccount x t)) (xs.map fun y => WriteOp.upsertAccount y t)).accounts.any
        (fun r => r.address == b) = true
    rcases hb with hmem | hany
    · rcases List.mem_cons.mp hmem with hbx | hbxs
      · subst hbx
        refine ih _ (Or.inr ?_)
        simp only [applyWrite]
        exact upsertBy_any _ _ _ _ (fun r hr => hr) (by simp)
      · exact ih _ (Or.inl hbxs)
    · exact ih _ (Or.inr (any_account_preserved st x t b hany))

/-- C9: the address-extraction heuristic drops short candidates — an
extracted string updates or creates an Account row only when it is at
least 10 characters long; any string shorter than 10 characters (the
empty string included) never creates or updates an Account row, while
every extracted candidate of length at least 10 is upserted. -/
theorem short_address_never_upserted
    (transactions : List TxRow) (blockTime : Nat) (st : Store) (a : String)
    (hshort : a.length < 10) :
    (applyOps st (accountOps transactions blockTime)).accounts.find? (fun r => r.address == a) =
      st.accounts.find? (fun r => r.address == a) ∧
    (∀ b, b ∈ extractAddresses transactions → 10 ≤ b.length →
      (applyOps st (accountOps transactions blockTime)).accounts.any
        (fun r => r.address == b) = true) := by
  constructor
  · apply find_account_applyOps_ne
    intro b hb
    have hlen : 10 ≤ b.length := by
      rw [List.mem_filter] at hb
      have := hb.2
      simp only [Bool.not_eq_true'] at this
      rcases Bool.or_eq_false_iff.mp this with ⟨h1, h2⟩
      simpa using of_decide_eq_false h2
    rw [beq_eq_false_iff_ne]
    intro hba
    subst hba
    omega
  · intro b hmem hlen
    apply any_account_after_upserts
    refine Or.inl ?_
    rw [List.mem_filter]
    refine ⟨hmem, ?_⟩
    have hne : ¬(b == "") = true := by
      rw [beq_iff_eq]
      intro hemp
      subst hemp
      simp at hlen
    simp [hne]
    omega

theorem applyOps_append (st : Store) (l1 l2 : List WriteOp) :
    applyOps st (l1 ++ l2) = applyOps (applyOps st l1) l2 := by
  simp [applyOps, List.foldl_append]

/-- Transaction upserts touch only the `txs` component. -/
theorem applyOps_txUpserts (l : List TxRow) : ∀ st : Store,
    applyOps st (l.map WriteOp.upsertTx) =
      { st with txs := (l.foldl
          (fun acc t => upsertBy (fun r => r.hash == t.hash) (fun _ => t) t acc) st.txs) } := by
  induction l with
  | nil => intro st; rfl
  | cons t ts ih =>
    intro st
    show applyOps (applyWrite st (.upsertTx t)) (ts.map WriteOp.upsertTx) = _
    rw [ih]
    rfl

/-- Event creates touch only the `events` component, appending in order. -/
theorem applyOps_createEvents (l : List EventRow) : ∀ st : Store,
    applyOps st (l.map WriteOp.createEvent) = { st with events := st.events ++ l } := by
  induction l with
  | nil => intro st; simp only [List.map_nil, List.append_nil]; rfl
  | cons e es ih =>
    intro st
    show applyOps (applyWrite st (.createEvent e)) (es.map WriteOp.createEvent) = _
    rw [ih]
    simp [applyWrite]

/-- Account upserts touch only the `accounts` component. -/
theorem applyOps_accountUpserts (addrs : List String) (t : Nat) : ∀ st : Store,
    applyOps st (addrs.map fun a => WriteOp.upsertAccount a t) =
      { st with accounts := (addrs.foldl
          (fun acc a => upsertBy (fun r => r.address == a)
            (fun r => { r with txCount := r.txCount + 1, lastSeen := t })
            { address := a, txCount := 1, firstSeen := t, lastSeen := t } acc) st.accounts) } := by
  induction addrs with
  | nil => intro st; rfl
  | cons a as ih =>
    intro st
    show applyOps (applyWrite st (.upsertAccount a t)) (as.map fun x => WriteOp.upsertAccount x t) = _
    rw [ih]
    rfl

/-- The componentwise effect of the main commit unit: blocks get the
Block upsert, txs the Transaction upserts in order, events the appended
Event rows, accounts the filtered address upserts, and the checkpoint is
set to the committed height. -/
theorem mainCommit_characterization (height : Nat) (block : BlockRow)
    (transactions : List TxRow) (events : List EventRow) (blockTime : Nat) (st : Store) :
    applyOps st (mainCommitOps height block transactions events blockTime) =
      { blocks := upsertBy (fun r => r.height == block.height) (fun _ => block) block st.blocks
      , txs := transactions.foldl
          (fun acc t => upsertBy (fun r => r.hash == t.hash) (fun _ => t) t acc) st.txs
      , events := st.events ++ events
      , accounts := ((extractAddresses transactions).filter
            (fun a => !(a == "" || a.length < 10))).foldl
          (fun acc a => upsertBy (fun r => r.address == a)
            (fun r => { r with txCount := r.txCount + 1, lastSeen := blockTime })
            { address := a, txCount := 1, firstSeen := blockTime, lastSeen := blockTime } acc)
          st.accounts
      , lastIndexedHeight := some height } := by
  simp only [mainCommitOps]
  rw [applyOps_append, applyOps_append, applyOps_append, applyOps_append]
  rw [applyOps_txUpserts, applyOps_createEvents]
  rw [show accountOps transactions blockTime =
    ((extractAddresses transactions).filter (fun a => !(a == "" || a.length < 10))).map
      (fun a => WriteOp.upsertAccount a blockTime) from rfl]
  rw [applyOps_accountUpserts]
  rfl

/-- Upserting keeps the list length when a matching row already exists. -/
theorem upsertBy_length_of_any (p : α → Bool) (u : α → α) (c : α) (l : List α)
    (h : l.any p = true) : (upsertBy p u c l).length = l.length := by
  simp [upsertBy, h]

/-- An upsert whose update branch respects a predicate `q` on the rows it
touches preserves the presence of a `q`-row. -/
theorem upsertBy_any_preserved (p q : α → Bool) (u : α → α) (c : α) (l : List α)
    (hq : ∀ x, p x = true → q x = true → q (u x) = true)
    (h : l.any q = true) : (upsertBy p u c l).any q = true := by
  unfold upsertBy
  split
  · rw [List.any_eq_true] at h ⊢
    obtain ⟨x, hx, hqx⟩ := h
    refine ⟨if p x then u x else x, List.mem_map_of_mem _ hx, ?_⟩
    by_cases hpx : p x = true
    · simp [hpx, hq x hpx hqx]
    · rw [Bool.not_eq_true] at hpx
      simp [hpx, hqx]
  · rw [List.any_eq_true] at h ⊢
    obtain ⟨x, hx, hqx⟩ := h
    exact ⟨x, List.mem_append_left _ hx, hqx⟩

/-- Folding transaction upserts preserves the presence of any hash. -/
theorem txFold_preserves_hash (l : List TxRow) (h0 : String) : ∀ m : List TxRow,
    m.any (fun r => r.hash == h0) = true →
    (l.foldl (fun acc t => upsertBy (fun r => r.hash == t.hash) (fun _ => t) t acc) m).any
      (fun r => r.hash == h0) = true := by
  induction l with
  | nil => intro m hm; exact hm
  | cons t ts ih =>
    intro m hm
    refine ih _ (upsertBy_any_preserved _ _ _ _ _ ?_ hm)
    intro x hpx hqx
    rw [beq_iff_eq] at hpx hqx ⊢
    rw [← hpx]
    exact hqx

/-- After folding the transaction upserts, every upserted hash is
present. -/
theorem txFold_all_present (l : List TxRow) : ∀ m : List TxRow, ∀ t ∈ l,
    (l.foldl (fun acc t => upsertBy (fun r => r.hash == t.hash) (fun _ => t) t acc) m).any
      (fun r => r.hash == t.hash) = true := by
  induction l with
  | nil => intro m t ht; cases ht
  | cons x xs ih =>
    intro m t ht
    rcases List.mem_cons.mp ht with rfl | hmem
    · exact txFold_preserves_hash xs t.hash _
        (upsertBy_any _ _ _ _ (fun r _ => by simp) (by simp))
    · exact ih _ t hmem

/-- When every upserted hash is already present, the transaction fold
adds no rows. -/
theorem txFold_length_of_present (l : List TxRow) : ∀ m : List TxRow,
    (∀ t ∈ l, m.any (fun r => r.hash == t.hash) = true) →
    (l.foldl (fun acc t => upsertBy (fun r => r.hash == t.hash) (fun _ => t) t acc) m).length
      = m.length := by
  induction l with
  | nil => intro m _; rfl
  | cons x xs ih =>
    intro m hm
    have hx := hm x (List.mem_cons_self x xs)
    have hlen := upsertBy_length_of_any (fun r => r.hash == x.hash) (fun _ => x) x m hx
    rw [List.foldl_cons]
    rw [ih _ ?_, hlen]
    intro t ht
    refine upsertBy_any_preserved _ _ _ _ _ ?_ (hm t (List.mem_cons_of_mem x ht))
    intro y hpy hqy
    rw [beq_iff_eq] at hpy hqy ⊢
    rw [← hpy]
    exact hqy

/-- C3 counterexample: committing the same height twice inserts the same
Event row a second time — Event writes are plain `create`s with an
auto-increment key, not upserts, so re-ingestion duplicates Event rows. -/
theorem reingest_duplicates_events :
    (applyOps
      (applyOps Store.empty
        (mainCommitOps 3
          { height := 3, hash := "h3", timestamp := 40, proposer := none
          , txCount := 0, gasUsed := 0, gasWanted := 0 }
          []
          [{ txHash := some "t1", blockHeight := 3, type := "transfer", attributes := [] }]
          40))
      (mainCommitOps 3
        { height := 3, hash := "h3", timestamp := 40, proposer := none
        , txCount := 0, gasUsed := 0, gasWanted := 0 }
        []
        [{ txHash := some "t1", blockHeight := 3, type := "transfer", attributes := [] }]
        40)).events =
    [{ txHash := some "t1", blockHeight := 3, type := "transfer", attributes := [] },
     { txHash := some "t1", blockHeight := 3, type := "transfer", attributes := [] }] := rfl

/-- C3 amended: re-running the commit of an already-committed height adds
no Block row and no Transaction row (both are upserts on their unique
keys) and leaves the Checkpoint unchanged at that height, but appends
every Event row a second time (Event writes are inserts, not upserts). -/
theorem reingest_idempotent_amended
    (st : Store) (height : Nat) (block : BlockRow) (transactions : List TxRow)
    (events : List EventRow) (blockTime : Nat) :
    (applyOps (applyOps st (mainCommitOps height block transactions events blockTime))
        (mainCommitOps height block transactions events blockTime)).blocks.length =
      (applyOps st (mainCommitOps height block transactions events blockTime)).blocks.length ∧
    (applyOps (applyOps st (mainCommitOps height block transactions events blockTime))
        (mainCommitOps height block transactions events blockTime)).txs.length =
      (applyOps st (mainCommitOps height block transactions events blockTime)).txs.length ∧
    (applyOps (applyOps st (mainCommitOps height block transactions events blockTime))
        (mainCommitOps height block transactions events blockTime)).lastIndexedHeight =
      (applyOps st (mainCommitOps height block transactions events blockTime)).lastIndexedHeight ∧
    (applyOps (applyOps st (mainCommitOps height block transactions events blockTime))
        (mainCommitOps height block transactions events blockTime)).events =
      (applyOps st (mainCommitOps height block transactions events blockTime)).events ++ events := by
  rw [mainCommit_characterization, mainCommit_characterization]
  dsimp only
  refine ⟨?_, ?_, rfl, rfl⟩
  · apply upsertBy_length_of_any
    apply upsertBy_any
    · intro x _
      simp
    · simp
  · apply txFold_length_of_present
    intro t ht
    exact txFold_all_present transactions st.txs t ht

/-- A sample transaction row whose decoded data carries one short and one
long address-shaped string. -/
def sampleAddressTx : TxRow :=
  { hash := "AB12", blockHeight := 9, blockTime := 70, type := "t", messageTypes := []
  , messages := [{ type := "t", typeName := "T", module := none
                 , data := [("ownerAddress", .vStr "tw1")
                           , ("counterparty", .vStr "twilightaddr12345")] }]
  , fee := .vNull, gasUsed := 0, gasWanted := 0, memo := .vNull
  , status := "success", errorLog := .vNull, signers := [] }

/-- Witness for C9: the 3-character candidate `"tw1"` creates no Account
row while the 17-character candidate is upserted. -/
theorem short_address_never_upserted_witness :
    (applyOps Store.empty (accountOps [sampleAddressTx] 70)).accounts.find?
        (fun r => r.address == "tw1") = none ∧
    (applyOps Store.empty (accountOps [sampleAddressTx] 70)).accounts.any
        (fun r => r.address == "twilightaddr12345") = true :=
  let h := short_address_never_upserted [sampleAddressTx] 70 Store.empty "tw1" (by decide)
  ⟨h.1.trans rfl, h.2 "twilightaddr12345" (by decide) (by decide)⟩

/-- An upsert preserves a row predicate that the update branch and the
created row respect. -/
theorem upsertBy_all (p : α → Bool) (u : α → α) (c : α) (l : List α) (q : α → Bool)
    (hl : l.all q = true) (hu : ∀ x, q x = true → q (u x) = true) (hc : q c = true) :
    (upsertBy p u c l).all q = true := by
  unfold upsertBy
  rw [List.all_eq_true] at hl
  split
  · rw [List.all_eq_true]
    intro y hy
    rw [List.mem_map] at hy
    obtain ⟨x, hx, hxy⟩ := hy
    subst hxy
    by_cases hpx : p x = true
    · simp only [hpx, if_true]
      exact hu x (hl x hx)
    · rw [Bool.not_eq_true] at hpx
      simp only [hpx, Bool.false_eq_true, if_false]
      exact hl x hx
  · rw [List.all_eq_true]
    intro y hy
    rcases List.mem_append.mp hy with hyl | hyc
    · exact hl y hyl
    · rw [List.mem_singleton] at hyc
      subst hyc
      exact hc

/-- The two separate statements of the empty-block fallback, composed. -/
theorem fallback_characterization (height : Nat) (hash : String) (timestamp : Nat)
    (proposer : Option String) (st : Store) :
    applyOps st (fallbackOps height hash timestamp proposer) =
      { st with
        blocks := (upsertBy (fun r => r.height == height)
          (fun r => { r with hash := hash, timestamp := timestamp, proposer := proposer, txCount := 0 })
          { height := height, hash := hash, timestamp := timestamp, proposer := proposer
          , txCount := 0, gasUsed := 0, gasWanted := 0 } st.blocks)
      , lastIndexedHeight := some height } := rfl

/-- `storeInvariant` in propositional form. -/
theorem storeInvariant_iff (s : Nat) (st : Store) : storeInvariant s st = true ↔
    ((∀ b ∈ st.blocks, s ≤ b.height ∧ b.height ≤ checkpointOf st s) ∧
     (∀ h, s ≤ h → h ≤ checkpointOf st s → st.blocks.any (fun b => b.height == h) = true)) := by
  unfold storeInvariant
  rw [Bool.and_eq_true, List.all_eq_true, List.all_eq_true]
  constructor
  · rintro ⟨h1, h2⟩
    constructor
    · intro b hb
      have := h1 b hb
      rw [Bool.and_eq_true, decide_eq_true_eq, decide_eq_true_eq] at this
      exact this
    · intro h hsh hhc
      refine h2 h ?_
      rw [List.mem_range'_1]
      omega
  · rintro ⟨h1, h2⟩
    constructor
    · intro b hb
      rw [Bool.and_eq_true, decide_eq_true_eq, decide_eq_true_eq]
      exact h1 b hb
    · intro h hh
      rw [List.mem_range'_1] at hh
      exact h2 h (by omega) (by omega)

/-- Case analysis for membership in an upsert result. -/
theorem mem_upsertBy (p : α → Bool) (u : α → α) (c : α) (l : List α) (y : α)
    (hy : y ∈ upsertBy p u c l) :
    (∃ x ∈ l, p x = true ∧ y = u x) ∨ y ∈ l ∨ y = c := by
  unfold upsertBy at hy
  split at hy
  · rw [List.mem_map] at hy
    obtain ⟨x, hx, hxy⟩ := hy
    by_cases hpx : p x = true
    · exact Or.inl ⟨x, hx, hpx, by rw [← hxy]; simp [hpx]⟩
    · rw [Bool.not_eq_true] at hpx
      refine Or.inr (Or.inl ?_)
      rw [← hxy]
      simp only [hpx, Bool.false_eq_true, if_false]
      exact hx
  · rcases List.mem_append.mp hy with hyl | hyc
    · exact Or.inr (Or.inl hyl)
    · exact Or.inr (Or.inr (List.mem_singleton.mp hyc))

/-- C5: a completed ingestion step at the next height — on the main
commit path or on the empty-block fallback path — preserves the
Block/Checkpoint invariant and leaves the Checkpoint exactly at the
committed height: no Block row above the Checkpoint, and no gap from the
first ingested height up to it. -/
theorem checkpoint_block_invariant
    (startHeight : Nat) (st : Store) (height : Nat) (block : BlockRow)
    (transactions : List TxRow) (events : List EventRow) (blockTime : Nat)
    (hash : String) (timestamp : Nat) (proposer : Option String)
    (hinv : storeInvariant startHeight st = true)
    (hh : height = checkpointOf st startHeight + 1)
    (hsh : startHeight ≤ height)
    (hb : block.height = height) :
    (storeInvariant startHeight
        (applyOps st (mainCommitOps height block transactions events blockTime)) = true ∧
      checkpointOf (applyOps st (mainCommitOps height block transactions events blockTime))
        startHeight = height) ∧
    (storeInvariant startHeight (applyOps st (fallbackOps height hash timestamp proposer)) = true ∧
      checkpointOf (applyOps st (fallbackOps height hash timestamp proposer)) startHeight
        = height) := by
  have hinv2 := (storeInvariant_iff startHeight st).mp hinv
  rw [mainCommit_characterization, fallback_characterization]
  refine ⟨⟨?_, rfl⟩, ?_, rfl⟩
  · rw [storeInvariant_iff]
    simp only [checkpointOf]
    constructor
    · intro b hbmem
      rcases mem_upsertBy _ _ _ _ b hbmem with ⟨x, _, _, hbx⟩ | hbl | hbc
      · subst hbx
        omega
      · have := hinv2.1 b hbl
        omega
      · subst hbc
        omega
    · intro h hs hc
      rcases Nat.lt_or_ge h height with hlt | hge
      · refine upsertBy_any_preserved _ _ _ _ _ ?_ (hinv2.2 h hs (by omega))
        intro x hpx hqx
        rw [beq_iff_eq] at hpx hqx ⊢
        omega
      · have hhh : h = height := by omega
        subst hhh
        have hany := upsertBy_any (fun r => r.height == block.height) (fun _ => block) block
          st.blocks (fun x _ => by simp) (by simp)
        rw [List.any_eq_true] at hany ⊢
        obtain ⟨x, hx, hqx⟩ := hany
        exact ⟨x, hx, by rw [beq_iff_eq] at hqx ⊢; omega⟩
  · rw [storeInvariant_iff]
    simp only [checkpointOf]
    constructor
    · intro b hbmem
      rcases mem_upsertBy _ _ _ _ b hbmem with ⟨x, hxl, _, hbx⟩ | hbl | hbc
      · subst hbx
        have := hinv2.1 x hxl
        dsimp only
        omega
      · have := hinv2.1 b hbl
        omega
      · subst hbc
        dsimp only
        omega
    · intro h hs hc
      rcases Nat.lt_or_ge h height with hlt | hge
      · refine upsertBy_any_preserved _ _ _ _ _ ?_ (hinv2.2 h hs (by omega))
        intro x _ hqx
        exact hqx
      · have hhh : h = height := by omega
        subst hhh
        exact upsertBy_any _ _ _ _ (fun x hx => hx) (by simp)

/-- Witness for C5: committing height 1 on a fresh store (checkpoint
absent, start height 1) yields a store satisfying the invariant with
checkpoint 1. -/
theorem checkpoint_block_invariant_witness :
    storeInvariant 1
      (applyOps Store.empty
        (mainCommitOps 1
          { height := 1, hash := "g", timestamp := 5, proposer := none
          , txCount := 0, gasUsed := 0, gasWanted := 0 } [] [] 5)) = true ∧
    checkpointOf
      (applyOps Store.empty
        (mainCommitOps 1
          { height := 1, hash := "g", timestamp := 5, proposer := none
          , txCount := 0, gasUsed := 0, gasWanted := 0 } [] [] 5)) 1 = 1 :=
  (checkpoint_block_invariant 1 Store.empty 1
    { height := 1, hash := "g", timestamp := 5, proposer := none
    , txCount := 0, gasUsed := 0, gasWanted := 0 }
    [] [] 5 "g" 5 none (by decide) (by decide) (by decide) (by decide)).1

/-- The dispatch of `decodeMessageData` agrees with the decoder-selection
table: a selected decoder runs, and every fall-through lands on the
passthrough. -/
theorem decodeMessageData_eq (t : String) (msg : JsObj) :
    decodeMessageData t msg =
      match specificDecoder t with
      | some d => d msg
      | none => .ok (passthroughData msg) := by
  unfold decodeMessageData specificDecoder
  split_ifs <;> try rfl
  all_goals
    unfold moduleSwitch
    split <;> rename_i heq <;> rw [heq] <;> rfl

/-- C6: for a message whose type identifier selects no specific decoder
(unknown namespace, or known module with an unrecognized type), and for a
message whose selected decoder throws, `decodeMessage` returns normally
with a data map equal to the original fields minus the `@type`
discriminator. -/
theorem decodeMessage_fallback (msg : JsObj) (t : String)
    (ht : getField msg "@type" = .vStr t)
    (h : specificDecoder t = none ∨
      ∃ d e, specificDecoder t = some d ∧ d msg = .error e) :
    (decodeMessage msg).data = passthroughData msg := by
  have htype : typeOf msg = t := by rw [typeOf, ht]; rfl
  unfold decodeMessage
  dsimp only
  rw [htype, decodeMessageData_eq]
  rcases h with hnone | ⟨d, e, hd, herr⟩
  · rw [hnone]
  · rw [hd]
    dsimp only
    rw [herr]

/-- Witness for C6: an unknown message type falls back to the
passthrough, and so does a bridge deposit whose decoder throws on the
non-numeric amount `"12x"`. -/
theorem decodeMessage_fallback_witness :
    (decodeMessage [("@type", .vStr "/cosmos.bank.v1beta1.MsgSend"), ("amount", .vStr "7")]).data
        = [("amount", Value.vStr "7")] ∧
    (decodeMessage [("@type", .vStr MESSAGE_TYPES.CONFIRM_BTC_DEPOSIT)
                   , ("depositAmount", .vStr "12x")]).data
        = [("depositAmount", Value.vStr "12x")] :=
  ⟨(decodeMessage_fallback
      [("@type", .vStr "/cosmos.bank.v1beta1.MsgSend"), ("amount", .vStr "7")]
      "/cosmos.bank.v1beta1.MsgSend" rfl (Or.inl rfl)).trans rfl,
   (decodeMessage_fallback
      [("@type", .vStr MESSAGE_TYPES.CONFIRM_BTC_DEPOSIT), ("depositAmount", .vStr "12x")]
      MESSAGE_TYPES.CONFIRM_BTC_DEPOSIT rfl
      (Or.inr ⟨decodeConfirmBtcDeposit, "SyntaxError: Cannot convert string to a BigInt",
        rfl, rfl⟩)).trans rfl⟩

/-! ### Wide-integer freedom of serialized message data (C8) -/

mutual

/-- No `bigint` anywhere in the value. -/
def noBigIntVal : Value → Bool
  | .vBigInt _ => false
  | .vArr elems => noBigIntList elems
  | .vObj fields => noBigIntObj fields
  | _ => true

def noBigIntList : List Value → Bool
  | [] => true
  | v :: rest => noBigIntVal v && noBigIntList rest

def noBigIntObj : List (String × Value) → Bool
  | [] => true
  | kv :: rest => noBigIntVal kv.2 && noBigIntObj rest

end

/-- A direct array element `serializeDecodedData` can handle: a `bigint`
(stringified by the shallow map) or a value already free of bigints. -/
def arrElemOk : Value → Bool
  | .vBigInt _ => true
  | v => noBigIntVal v

mutual

/-- An object entry `serializeDecodedData` turns bigint-free: a top-level
`bigint`, an array of `arrElemOk` elements, a nested object of such
entries, or a bigint-free scalar. -/
def entryOk : Value → Bool
  | .vBigInt _ => true
  | .vArr elems => elems.all arrElemOk
  | .vObj fields => entriesOk fields
  | v => noBigIntVal v

def entriesOk : List (String × Value) → Bool
  | [] => true
  | kv :: rest => entryOk kv.2 && entriesOk rest

end

theorem noBigIntObj_forall (o : JsObj) :
    noBigIntObj o = true ↔ ∀ kv ∈ o, noBigIntVal kv.2 = true := by
  induction o with
  | nil => simp [noBigIntObj]
  | cons kv rest ih =>
    rw [noBigIntObj, Bool.and_eq_true, ih]
    constructor
    · rintro ⟨h1, h2⟩ x hx
      rcases List.mem_cons.mp hx with rfl | hxr
      · exact h1
      · exact h2 x hxr
    · intro h
      exact ⟨h kv (List.mem_cons_self kv rest), fun x hx => h x (List.mem_cons_of_mem kv hx)⟩

theorem entriesOk_forall (o : JsObj) :
    entriesOk o = true ↔ ∀ kv ∈ o, entryOk kv.2 = true := by
  induction o with
  | nil => simp [entriesOk]
  | cons kv rest ih =>
    rw [entriesOk, Bool.and_eq_true, ih]
    constructor
    · rintro ⟨h1, h2⟩ x hx
      rcases List.mem_cons.mp hx with rfl | hxr
      · exact h1
      · exact h2 x hxr
    · intro h
      exact ⟨h kv (List.mem_cons_self kv rest), fun x hx => h x (List.mem_cons_of_mem kv hx)⟩

/-- A bigint-free value is an acceptable array element. -/
theorem arrElemOk_of_noBigInt (v : Value) (h : noBigIntVal v = true) : arrElemOk v = true := by
  cases v <;> simp [arrElemOk] <;> exact h

/-- Elementwise form of `noBigIntList`. -/
theorem noBigIntList_forall (l : List Value) :
    noBigIntList l = true ↔ ∀ v ∈ l, noBigIntVal v = true := by
  induction l with
  | nil => simp [noBigIntList]
  | cons v rest ih =>
    rw [noBigIntList, Bool.and_eq_true, ih]
    constructor
    · rintro ⟨h1, h2⟩ x hx
      rcases List.mem_cons.mp hx with rfl | hxr
      · exact h1
      · exact h2 x hxr
    · intro h
      exact ⟨h v (List.mem_cons_self v rest), fun x hx => h x (List.mem_cons_of_mem v hx)⟩

mutual

/-- A bigint-free value is an acceptable object entry. -/
theorem entryOk_of_noBigInt : ∀ v : Value, noBigIntVal v = true → entryOk v = true
  | .vStr _, _ => rfl
  | .vNum _, _ => rfl
  | .vNaN, _ => rfl
  | .vBool _, _ => rfl
  | .vNull, _ => rfl
  | .vUndefined, _ => rfl
  | .vBigInt _, h => by rw [noBigIntVal] at h; exact absurd h (by simp)
  | .vArr elems, h => by
    rw [entryOk]
    rw [noBigIntVal] at h
    rw [List.all_eq_true]
    intro x hx
    exact arrElemOk_of_noBigInt x ((noBigIntList_forall elems).mp h x hx)
  | .vObj fields, h => by
    rw [entryOk]
    rw [noBigIntVal] at h
    exact entriesOk_of_noBigIntObj fields h

/-- A bigint-free object has acceptable entries throughout. -/
theorem entriesOk_of_noBigIntObj : ∀ o : JsObj, noBigIntObj o = true → entriesOk o = true
  | [], _ => rfl
  | kv :: rest, h => by
    rw [entriesOk, Bool.and_eq_true]
    rw [noBigIntObj, Bool.and_eq_true] at h
    exact ⟨entryOk_of_noBigInt kv.2 h.1, entriesOk_of_noBigIntObj rest h.2⟩

end

/-- The shallow array map of `serializeDecodedData` yields bigint-free
elements from acceptable ones. -/
theorem noBigIntList_map_serialize (elems : List Value)
    (h : elems.all arrElemOk = true) :
    noBigIntList (elems.map serializeArrayElem) = true := by
  induction elems with
  | nil => rfl
  | cons v rest ih =>
    rw [List.all_cons, Bool.and_eq_true] at h
    rw [List.map_cons, noBigIntList, Bool.and_eq_true]
    refine ⟨?_, ih h.2⟩
    cases v with
    | vBigInt n => rfl
    | vStr s => exact h.1
    | vNum n => rfl
    | vNaN => rfl
    | vBool b => rfl
    | vNull => rfl
    | vUndefined => rfl
    | vArr es => exact h.1
    | vObj fs => exact h.1

mutual

/-- The per-entry serialization turns an acceptable entry bigint-free. -/
theorem serializeValEntry_noBigInt : ∀ v : Value, entryOk v = true →
    noBigIntVal (serializeValEntry v) = true
  | .vBigInt _, _ => rfl
  | .vArr elems, h => by
    rw [serializeValEntry]
    rw [show noBigIntVal (.vArr (elems.map serializeArrayElem))
        = noBigIntList (elems.map serializeArrayElem) from rfl]
    exact noBigIntList_map_serialize elems (by rw [entryOk] at h; exact h)
  | .vObj fields, h => by
    rw [serializeValEntry]
    rw [show noBigIntVal (.vObj (serializeDecodedData fields))
        = noBigIntObj (serializeDecodedData fields) from rfl]
    exact serialize_noBigInt fields (by rw [entryOk] at h; exact h)
  | .vStr s, h => rfl
  | .vNum n, h => rfl
  | .vNaN, h => rfl
  | .vBool b, h => rfl
  | .vNull, h => rfl
  | .vUndefined, h => rfl

/-- `serializeDecodedData` produces a bigint-free object from acceptable
entries. -/
theorem serialize_noBigInt : ∀ o : JsObj, entriesOk o = true →
    noBigIntObj (serializeDecodedData o) = true
  | [], _ => rfl
  | (k, v) :: rest, h => by
    rw [entriesOk, Bool.and_eq_true] at h
    rw [serializeDecodedData, noBigIntObj, Bool.and_eq_true]
    exact ⟨serializeValEntry_noBigInt v h.1, serialize_noBigInt rest h.2⟩

end


/-- Property reads from a bigint-free message are bigint-free. -/
theorem noBigIntVal_getField (msg : JsObj) (k : String) (h : noBigIntObj msg = true) :
    noBigIntVal (getField msg k) = true := by
  unfold getField
  cases hf : msg.find? (fun kv => kv.1 == k) with
  | none => rfl
  | some kv => exact (noBigIntObj_forall msg).mp h kv (List.mem_of_find?_eq_some hf)

theorem entryOk_getField (msg : JsObj) (k : String) (h : noBigIntObj msg = true) :
    entryOk (getField msg k) = true :=
  entryOk_of_noBigInt _ (noBigIntVal_getField msg k h)

theorem entryOk_jsOr (a b : Value) (ha : entryOk a = true) (hb : entryOk b = true) :
    entryOk (jsOr a b) = true := by
  rw [jsOr]
  split_ifs <;> assumption

theorem entryOk_jsParseInt (v : Value) : entryOk (jsParseInt v) = true := by
  unfold jsParseInt
  dsimp only
  split <;> rfl

theorem except_bind_ok (x : Except String α) (f : α → Except String β) (b : β)
    (h : (x >>= f) = .ok b) : ∃ a, x = .ok a ∧ f a = .ok b := by
  cases x with
  | error e => simp [Bind.bind, Except.bind] at h
  | ok a =>
    refine ⟨a, rfl, ?_⟩
    simpa [Bind.bind, Except.bind] using h

theorem decodeConfirmBtcDeposit_ok (msg : JsObj) (out : JsObj) (hm : noBigIntObj msg = true)
    (hout : decodeConfirmBtcDeposit msg = .ok out) : entriesOk out = true := by
  unfold decodeConfirmBtcDeposit at hout
  obtain ⟨n1, _, hout⟩ := except_bind_ok _ _ _ hout
  obtain ⟨n2, _, hout⟩ := except_bind_ok _ _ _ hout
  injection hout with hout
  subst hout
  simp only [entriesOk, Bool.and_eq_true, and_true]
  exact ⟨entryOk_getField msg "reserveAddress" hm, rfl, rfl,
    entryOk_getField msg "hash" hm, entryOk_getField msg "twilightDepositAddress" hm,
    entryOk_getField msg "oracleAddress" hm⟩


theorem decodeRegisterBtcDepositAddress_ok (msg : JsObj) (out : JsObj) (hm : noBigIntObj msg = true)
    (hout : decodeRegisterBtcDepositAddress msg = .ok out) : entriesOk out = true := by
  unfold decodeRegisterBtcDepositAddress at hout
  obtain ⟨n1, _, hout⟩ := except_bind_ok _ _ _ hout
  obtain ⟨n2, _, hout⟩ := except_bind_ok _ _ _ hout
  injection hout with hout
  subst hout
  simp only [entriesOk, Bool.and_eq_true, and_true]
  exact ⟨entryOk_getField msg "btcDepositAddress" hm,
    rfl,
    rfl,
    entryOk_getField msg "twilightAddress" hm⟩

theorem decodeRegisterReserveAddress_ok (msg : JsObj) (out : JsObj) (hm : noBigIntObj msg = true)
    (hout : decodeRegisterReserveAddress msg = .ok out) : entriesOk out = true := by
  unfold decodeRegisterReserveAddress at hout
  obtain ⟨n1, _, hout⟩ := except_bind_ok _ _ _ hout
  injection hout with hout
  subst hout
  simp only [entriesOk, Bool.and_eq_true, and_true]
  exact ⟨rfl,
    entryOk_getField msg "reserveScript" hm,
    entryOk_getField msg "reserveAddress" hm,
    entryOk_getField msg "judgeAddress" hm⟩

theorem decodeBootstrapFragment_ok (msg : JsObj) (out : JsObj) (hm : noBigIntObj msg = true)
    (hout : decodeBootstrapFragment msg = .ok out) : entriesOk out = true := by
  unfold decodeBootstrapFragment at hout
  obtain ⟨n1, _, hout⟩ := except_bind_ok _ _ _ hout
  injection hout with hout
  subst hout
  simp only [entriesOk, Bool.and_eq_true, and_true]
  exact ⟨entryOk_getField msg "judgeAddress" hm,
    entryOk_jsParseInt _,
    entryOk_jsParseInt _,
    rfl,
    entryOk_jsParseInt _,
    entryOk_getField msg "arbitraryData" hm,
    entryOk_getField msg "validatorAddress" hm⟩

theorem decodeWithdrawBtcRequest_ok (msg : JsObj) (out : JsObj) (hm : noBigIntObj msg = true)
    (hout : decodeWithdrawBtcRequest msg = .ok out) : entriesOk out = true := by
  unfold decodeWithdrawBtcRequest at hout
  obtain ⟨n1, _, hout⟩ := except_bind_ok _ _ _ hout
  obtain ⟨n2, _, hout⟩ := except_bind_ok _ _ _ hout
  injection hout with hout
  subst hout
  simp only [entriesOk, Bool.and_eq_true, and_true]
  exact ⟨entryOk_getField msg "withdrawAddress" hm,
    rfl,
    rfl,
    entryOk_getField msg "twilightAddress" hm⟩

theorem decodeSweepProposal_ok (msg : JsObj) (out : JsObj) (hm : noBigIntObj msg = true)
    (hout : decodeSweepProposal msg = .ok out) : entriesOk out = true := by
  unfold decodeSweepProposal at hout
  obtain ⟨n1, _, hout⟩ := except_bind_ok _ _ _ hout
  obtain ⟨n2, _, hout⟩ := except_bind_ok _ _ _ hout
  obtain ⟨n3, _, hout⟩ := except_bind_ok _ _ _ hout
  obtain ⟨n4, _, hout⟩ := except_bind_ok _ _ _ hout
  obtain ⟨n5, _, hout⟩ := except_bind_ok _ _ _ hout
  injection hout with hout
  subst hout
  simp only [entriesOk, Bool.and_eq_true, and_true]
  exact ⟨rfl,
    entryOk_getField msg "newReserveAddress" hm,
    entryOk_getField msg "judgeAddress" hm,
    rfl,
    rfl,
    entryOk_getField msg "btcTxHash" hm,
    rfl,
    rfl,
    entryOk_getField msg "oracleAddress" hm⟩

theorem decodeWithdrawTxSigned_ok (msg : JsObj) (out : JsObj) (hm : noBigIntObj msg = true)
    (hout : decodeWithdrawTxSigned msg = .ok out) : entriesOk out = true := by
  unfold decodeWithdrawTxSigned at hout
  injection hout with hout
  subst hout
  simp only [entriesOk, Bool.and_eq_true, and_true]
  exact ⟨entryOk_getField msg "creator" hm,
    entryOk_getField msg "validatorAddress" hm,
    entryOk_getField msg "btcTxSigned" hm⟩

theorem decodeWithdrawTxFinal_ok (msg : JsObj) (out : JsObj) (hm : noBigIntObj msg = true)
    (hout : decodeWithdrawTxFinal msg = .ok out) : entriesOk out = true := by
  unfold decodeWithdrawTxFinal at hout
  injection hout with hout
  subst hout
  simp only [entriesOk, Bool.and_eq_true, and_true]
  exact ⟨entryOk_getField msg "creator" hm,
    entryOk_getField msg "judgeAddress" hm,
    entryOk_getField msg "btcTx" hm⟩

theorem decodeConfirmBtcWithdraw_ok (msg : JsObj) (out : JsObj) (hm : noBigIntObj msg = true)
    (hout : decodeConfirmBtcWithdraw msg = .ok out) : entriesOk out = true := by
  unfold decodeConfirmBtcWithdraw at hout
  obtain ⟨n1, _, hout⟩ := except_bind_ok _ _ _ hout
  injection hout with hout
  subst hout
  simp only [entriesOk, Bool.and_eq_true, and_true]
  exact ⟨entryOk_getField msg "txHash" hm,
    rfl,
    entryOk_getField msg "hash" hm,
    entryOk_getField msg "judgeAddress" hm⟩

theorem decodeSignRefund_ok (msg : JsObj) (out : JsObj) (hm : noBigIntObj msg = true)
    (hout : decodeSignRefund msg = .ok out) : entriesOk out = true := by
  unfold decodeSignRefund at hout
  obtain ⟨n1, _, hout⟩ := except_bind_ok _ _ _ hout
  obtain ⟨n2, _, hout⟩ := except_bind_ok _ _ _ hout
  injection hout with hout
  subst hout
  simp only [entriesOk, Bool.and_eq_true, and_true]
  exact ⟨rfl,
    rfl,
    entryOk_getField msg "signerPublicKey" hm,
    entryOk_jsOr _ _ (entryOk_getField msg "refundSignature" hm) rfl,
    entryOk_getField msg "signerAddress" hm⟩

theorem decodeBroadcastTxSweep_ok (msg : JsObj) (out : JsObj) (hm : noBigIntObj msg = true)
    (hout : decodeBroadcastTxSweep msg = .ok out) : entriesOk out = true := by
  unfold decodeBroadcastTxSweep at hout
  obtain ⟨n1, _, hout⟩ := except_bind_ok _ _ _ hout
  obtain ⟨n2, _, hout⟩ := except_bind_ok _ _ _ hout
  injection hout with hout
  subst hout
  simp only [entriesOk, Bool.and_eq_true, and_true]
  exact ⟨rfl,
    rfl,
    entryOk_getField msg "signedSweepTx" hm,
    entryOk_getField msg "judgeAddress" hm⟩

theorem decodeSignSweep_ok (msg : JsObj) (out : JsObj) (hm : noBigIntObj msg = true)
    (hout : decodeSignSweep msg = .ok out) : entriesOk out = true := by
  unfold decodeSignSweep at hout
  obtain ⟨n1, _, hout⟩ := except_bind_ok _ _ _ hout
  obtain ⟨n2, _, hout⟩ := except_bind_ok _ _ _ hout
  injection hout with hout
  subst hout
  simp only [entriesOk, Bool.and_eq_true, and_true]
  exact ⟨rfl,
    rfl,
    entryOk_getField msg "signerPublicKey" hm,
    entryOk_jsOr _ _ (entryOk_getField msg "sweepSignature" hm) rfl,
    entryOk_getField msg "signerAddress" hm⟩

theorem decodeProposeRefundHash_ok (msg : JsObj) (out : JsObj) (hm : noBigIntObj msg = true)
    (hout : decodeProposeRefundHash msg = .ok out) : entriesOk out = true := by
  unfold decodeProposeRefundHash at hout
  injection hout with hout
  subst hout
  simp only [entriesOk, Bool.and_eq_true, and_true]
  exact ⟨entryOk_getField msg "refundHash" hm,
    entryOk_getField msg "judgeAddress" hm⟩

theorem decodeUnsignedTxSweep_ok (msg : JsObj) (out : JsObj) (hm : noBigIntObj msg = true)
    (hout : decodeUnsignedTxSweep msg = .ok out) : entriesOk out = true := by
  unfold decodeUnsignedTxSweep at hout
  obtain ⟨n1, _, hout⟩ := except_bind_ok _ _ _ hout
  obtain ⟨n2, _, hout⟩ := except_bind_ok _ _ _ hout
  injection hout with hout
  subst hout
  simp only [entriesOk, Bool.and_eq_true, and_true]
  exact ⟨entryOk_getField msg "txId" hm,
    entryOk_getField msg "btcUnsignedSweepTx" hm,
    rfl,
    rfl,
    entryOk_getField msg "judgeAddress" hm⟩

theorem decodeUnsignedTxRefund_ok (msg : JsObj) (out : JsObj) (hm : noBigIntObj msg = true)
    (hout : decodeUnsignedTxRefund msg = .ok out) : entriesOk out = true := by
  unfold decodeUnsignedTxRefund at hout
  obtain ⟨n1, _, hout⟩ := except_bind_ok _ _ _ hout
  obtain ⟨n2, _, hout⟩ := except_bind_ok _ _ _ hout
  injection hout with hout
  subst hout
  simp only [entriesOk, Bool.and_eq_true, and_true]
  exact ⟨rfl,
    rfl,
    entryOk_getField msg "btcUnsignedRefundTx" hm,
    entryOk_getField msg "judgeAddress" hm⟩

theorem decodeBroadcastTxRefund_ok (msg : JsObj) (out : JsObj) (hm : noBigIntObj msg = true)
    (hout : decodeBroadcastTxRefund msg = .ok out) : entriesOk out = true := by
  unfold decodeBroadcastTxRefund at hout
  obtain ⟨n1, _, hout⟩ := except_bind_ok _ _ _ hout
  obtain ⟨n2, _, hout⟩ := except_bind_ok _ _ _ hout
  injection hout with hout
  subst hout
  simp only [entriesOk, Bool.and_eq_true, and_true]
  exact ⟨rfl,
    rfl,
    entryOk_getField msg "signedRefundTx" hm,
    entryOk_getField msg "judgeAddress" hm⟩

theorem decodeProposeSweepAddress_ok (msg : JsObj) (out : JsObj) (hm : noBigIntObj msg = true)
    (hout : decodeProposeSweepAddress msg = .ok out) : entriesOk out = true := by
  unfold decodeProposeSweepAddress at hout
  obtain ⟨n1, _, hout⟩ := except_bind_ok _ _ _ hout
  obtain ⟨n2, _, hout⟩ := except_bind_ok _ _ _ hout
  injection hout with hout
  subst hout
  simp only [entriesOk, Bool.and_eq_true, and_true]
  exact ⟨entryOk_getField msg "btcAddress" hm,
    entryOk_getField msg "btcScript" hm,
    rfl,
    rfl,
    entryOk_getField msg "judgeAddress" hm⟩

theorem decodeSetDelegateAddresses_ok (msg : JsObj) (out : JsObj) (hm : noBigIntObj msg = true)
    (hout : decodeSetDelegateAddresses msg = .ok out) : entriesOk out = true := by
  unfold decodeSetDelegateAddresses at hout
  injection hout with hout
  subst hout
  simp only [entriesOk, Bool.and_eq_true, and_true]
  exact ⟨entryOk_getField msg "validatorAddress" hm,
    entryOk_getField msg "btcOracleAddress" hm,
    entryOk_getField msg "btcPublicKey" hm,
    entryOk_jsOr _ _ (entryOk_getField msg "zkOracleAddress" hm) rfl⟩

theorem decodeSeenBtcChainTip_ok (msg : JsObj) (out : JsObj) (hm : noBigIntObj msg = true)
    (hout : decodeSeenBtcChainTip msg = .ok out) : entriesOk out = true := by
  unfold decodeSeenBtcChainTip at hout
  obtain ⟨n1, _, hout⟩ := except_bind_ok _ _ _ hout
  injection hout with hout
  subst hout
  simp only [entriesOk, Bool.and_eq_true, and_true]
  exact ⟨rfl,
    entryOk_getField msg "hash" hm,
    entryOk_getField msg "btcOracleAddress" hm⟩

theorem decodeSignerApplication_ok (msg : JsObj) (out : JsObj) (hm : noBigIntObj msg = true)
    (hout : decodeSignerApplication msg = .ok out) : entriesOk out = true := by
  unfold decodeSignerApplication at hout
  obtain ⟨n1, _, hout⟩ := except_bind_ok _ _ _ hout
  obtain ⟨n2, _, hout⟩ := except_bind_ok _ _ _ hout
  injection hout with hout
  subst hout
  simp only [entriesOk, Bool.and_eq_true, and_true]
  exact ⟨rfl,
    rfl,
    entryOk_jsParseInt _,
    entryOk_getField msg "btcPubKey" hm,
    entryOk_getField msg "signerAddress" hm⟩

theorem decodeTransferTx_ok (msg : JsObj) (out : JsObj) (hm : noBigIntObj msg = true)
    (hout : decodeTransferTx msg = .ok out) : entriesOk out = true := by
  unfold decodeTransferTx at hout
  obtain ⟨n1, _, hout⟩ := except_bind_ok _ _ _ hout
  injection hout with hout
  subst hout
  simp only [entriesOk, Bool.and_eq_true, and_true]
  exact ⟨entryOk_getField msg "txId" hm,
    entryOk_getField msg "txByteCode" hm,
    rfl,
    entryOk_getField msg "zkOracleAddress" hm⟩

theorem decodeMintBurnTradingBtc_ok (msg : JsObj) (out : JsObj) (hm : noBigIntObj msg = true)
    (hout : decodeMintBurnTradingBtc msg = .ok out) : entriesOk out = true := by
  unfold decodeMintBurnTradingBtc at hout
  obtain ⟨n1, _, hout⟩ := except_bind_ok _ _ _ hout
  injection hout with hout
  subst hout
  simp only [entriesOk, Bool.and_eq_true, and_true]
  exact ⟨entryOk_getField msg "mintOrBurn" hm,
    rfl,
    entryOk_getField msg "qqAccount" hm,
    entryOk_getField msg "encryptScalar" hm,
    entryOk_getField msg "twilightAddress" hm⟩

/-- Every element produced by the `signerApplicationIds` `BigInt` map is
a bigint, an acceptable array element. -/
theorem mapM_bigint_all (elems : List Value) : ∀ ids : List Value,
    elems.mapM (fun v => (jsBigInt v).map Value.vBigInt) = .ok ids →
    ids.all arrElemOk = true := by
  induction elems with
  | nil =>
    intro ids h
    injection h with h
    subst h
    rfl
  | cons v rest ih =>
    intro ids h
    rw [List.mapM_cons] at h
    obtain ⟨x, hx, h⟩ := except_bind_ok _ _ _ h
    obtain ⟨xs, hxs, h⟩ := except_bind_ok _ _ _ h
    injection h with h
    subst h
    rw [List.all_cons, Bool.and_eq_true]
    refine ⟨?_, ih xs hxs⟩
    cases hb : jsBigInt v with
    | error e =>
      rw [hb] at hx
      exact absurd hx (by simp [Except.map])
    | ok n =>
      rw [hb] at hx
      simp only [Except.map] at hx
      injection hx with hx
      subst hx
      rfl

theorem decodeAcceptSigners_ok (msg : JsObj) (out : JsObj) (hm : noBigIntObj msg = true)
    (hout : decodeAcceptSigners msg = .ok out) : entriesOk out = true := by
  unfold decodeAcceptSigners at hout
  obtain ⟨n1, _, hout⟩ := except_bind_ok _ _ _ hout
  dsimp only at hout
  cases hjs : jsOr (getField msg "signerApplicationIds") (Value.vArr []) with
  | vArr elems =>
    rw [hjs] at hout
    obtain ⟨ids, hids, hout⟩ := except_bind_ok _ _ _ hout
    injection hout with hout
    subst hout
    simp only [entriesOk, Bool.and_eq_true, and_true]
    refine ⟨rfl, ?_, entryOk_getField msg "judgeAddress" hm⟩
    rw [show entryOk (Value.vArr ids) = ids.all arrElemOk from rfl]
    exact mapM_bigint_all elems ids hids
  | vStr s =>
    rw [hjs] at hout
    exact absurd hout (by simp [Bind.bind, Except.bind])
  | vNum n =>
    rw [hjs] at hout
    exact absurd hout (by simp [Bind.bind, Except.bind])
  | vNaN =>
    rw [hjs] at hout
    exact absurd hout (by simp [Bind.bind, Except.bind])
  | vBigInt n =>
    rw [hjs] at hout
    exact absurd hout (by simp [Bind.bind, Except.bind])
  | vBool b =>
    rw [hjs] at hout
    exact absurd hout (by simp [Bind.bind, Except.bind])
  | vNull =>
    rw [hjs] at hout
    exact absurd hout (by simp [Bind.bind, Except.bind])
  | vUndefined =>
    rw [hjs] at hout
    exact absurd hout (by simp [Bind.bind, Except.bind])
  | vObj fs =>
    rw [hjs] at hout
    exact absurd hout (by simp [Bind.bind, Except.bind])

/-- The passthrough keeps a bigint-free message bigint-free. -/
theorem noBigIntObj_passthrough (msg : JsObj) (hm : noBigIntObj msg = true) :
    noBigIntObj (passthroughData msg) = true := by
  rw [noBigIntObj_forall] at hm ⊢
  intro kv hkv
  exact hm kv (List.mem_of_mem_filter hkv)

/-- Every decoder the dispatch can select yields acceptable entries on a
bigint-free message. -/
theorem specificDecoder_entriesOk (t : String) (d : JsObj → Except String JsObj)
    (msg out : JsObj) (hsd : specificDecoder t = some d)
    (hout : d msg = .ok out) (hm : noBigIntObj msg = true) : entriesOk out = true := by
  unfold specificDecoder at hsd
  split_ifs at hsd
  · obtain ⟨kv, hfind, hkv⟩ := Option.map_eq_some'.mp hsd
    have hmem := List.mem_of_find?_eq_some hfind
    subst hkv
    simp only [bridgeDecoders, List.mem_cons, List.not_mem_nil, or_false] at hmem
    rcases hmem with h|h|h|h|h|h|h|h|h|h|h|h|h|h|h|h|h <;>
      · subst h
        first
          | exact decodeConfirmBtcDeposit_ok msg out hm hout
          | exact decodeRegisterBtcDepositAddress_ok msg out hm hout
          | exact decodeRegisterReserveAddress_ok msg out hm hout
          | exact decodeBootstrapFragment_ok msg out hm hout
          | exact decodeWithdrawBtcRequest_ok msg out hm hout
          | exact decodeSweepProposal_ok msg out hm hout
          | exact decodeWithdrawTxSigned_ok msg out hm hout
          | exact decodeWithdrawTxFinal_ok msg out hm hout
          | exact decodeConfirmBtcWithdraw_ok msg out hm hout
          | exact decodeSignRefund_ok msg out hm hout
          | exact decodeBroadcastTxSweep_ok msg out hm hout
          | exact decodeSignSweep_ok msg out hm hout
          | exact decodeProposeRefundHash_ok msg out hm hout
          | exact decodeUnsignedTxSweep_ok msg out hm hout
          | exact decodeUnsignedTxRefund_ok msg out hm hout
          | exact decodeBroadcastTxRefund_ok msg out hm hout
          | exact decodeProposeSweepAddress_ok msg out hm hout
  · obtain ⟨kv, hfind, hkv⟩ := Option.map_eq_some'.mp hsd
    have hmem := List.mem_of_find?_eq_some hfind
    subst hkv
    simp only [forksDecoders, List.mem_cons, List.not_mem_nil, or_false] at hmem
    rcases hmem with h|h <;>
      · subst h
        first
          | exact decodeSetDelegateAddresses_ok msg out hm hout
          | exact decodeSeenBtcChainTip_ok msg out hm hout
  · obtain ⟨kv, hfind, hkv⟩ := Option.map_eq_some'.mp hsd
    have hmem := List.mem_of_find?_eq_some hfind
    subst hkv
    simp only [voltDecoders, List.mem_cons, List.not_mem_nil, or_false] at hmem
    rcases hmem with h|h <;>
      · subst h
        first
          | exact decodeSignerApplication_ok msg out hm hout
          | exact decodeAcceptSigners_ok msg out hm hout
  · obtain ⟨kv, hfind, hkv⟩ := Option.map_eq_some'.mp hsd
    have hmem := List.mem_of_find?_eq_some hfind
    subst hkv
    simp only [zkosDecoders, List.mem_cons, List.not_mem_nil, or_false] at hmem
    rcases hmem with h|h <;>
      · subst h
        first
          | exact decodeTransferTx_ok msg out hm hout
          | exact decodeMintBurnTradingBtc_ok msg out hm hout

/-- The serialized data of any decoded message of a bigint-free (JSON)
message is bigint-free at every nesting depth. -/
theorem decodeMessage_serialized_noBigInt (msg : JsObj) (hm : noBigIntObj msg = true) :
    noBigIntObj (serializeDecodedData (decodeMessage msg).data) = true := by
  unfold decodeMessage
  dsimp only
  rw [decodeMessageData_eq]
  cases hsd : specificDecoder (typeOf msg) with
  | none =>
    exact serialize_noBigInt _ (entriesOk_of_noBigIntObj _ (noBigIntObj_passthrough msg hm))
  | some d =>
    dsimp only
    cases hout : d msg with
    | error e =>
      exact serialize_noBigInt _ (entriesOk_of_noBigIntObj _ (noBigIntObj_passthrough msg hm))
    | ok out =>
      exact serialize_noBigInt _ (specificDecoder_entriesOk _ d msg out hsd hout hm)

/-- C8: every decoded message data map stored on a Transaction row (the
same records carried on the `tx:new` Event Bus payload) is serialized
with no wide-integer value anywhere in its structure — every bigint a
decoder produced, at any nesting depth that occurs, has been replaced by
its decimal string. -/
theorem txRow_messages_bigint_free (tx : TxResponseIn) (blockHeight blockTime : Nat)
    (row : TxRow)
    (hbody : ∀ b, tx.body = some b → ∀ m ∈ b.messages, noBigIntObj m = true)
    (hrow : processTransaction tx blockHeight blockTime = .ok row) :
    ∀ sm ∈ row.messages, noBigIntObj sm.data = true := by
  unfold processTransaction at hrow
  dsimp only at hrow
  obtain ⟨g1, _, hrow⟩ := except_bind_ok _ _ _ hrow
  obtain ⟨g2, _, hrow⟩ := except_bind_ok _ _ _ hrow
  injection hrow with hrow
  subst hrow
  intro sm hsm
  dsimp only at hsm
  rw [List.mem_map] at hsm
  obtain ⟨m, hmem, hsmeq⟩ := hsm
  subst hsmeq
  dsimp only
  apply decodeMessage_serialized_noBigInt
  cases hb : tx.body with
  | none =>
    rw [hb] at hmem
    cases hmem
  | some b =>
    rw [hb] at hmem
    exact hbody b hb m hmem

/-- A transaction response carrying one deposit-confirmation message with
bigint-producing amount fields. -/
def sampleDepositTxResponse : TxResponseIn :=
  { txhash := some "AB", code := 0, rawLog := .vNull
  , gasUsed := .vStr "10", gasWanted := .vStr "20"
  , body := some { messages := [[("@type", .vStr MESSAGE_TYPES.CONFIRM_BTC_DEPOSIT)
                                , ("reserveAddress", .vStr "res1")
                                , ("depositAmount", .vStr "12345678901234567890")
                                , ("height", .vStr "800000")
                                , ("hash", .vStr "btc")
                                , ("twilightDepositAddress", .vStr "twilightdep1")
                                , ("oracleAddress", .vStr "orac1")]]
                 , memo := .vStr "" }
  , authInfo := none, events := none }

/-- Witness for C8: the row built from `sampleDepositTxResponse` stores
serialized message data with no bigint anywhere. -/
theorem txRow_messages_bigint_free_witness :
    (match processTransaction sampleDepositTxResponse 7 9 with
     | .ok row => row.messages.all (fun sm => noBigIntObj sm.data)
     | .error _ => false) = true := by
  cases hrow : processTransaction sampleDepositTxResponse 7 9 with
  | error e =>
    have heval : (processTransaction sampleDepositTxResponse 7 9).isOk = true := by decide
    rw [hrow] at heval
    exact absurd heval (by simp [Except.isOk, Except.toBool])
  | ok row =>
    dsimp only
    rw [List.all_eq_true]
    intro sm hsm
    refine txRow_messages_bigint_free _ 7 9 row ?_ hrow sm hsm
    intro b hb m hmem
    rw [show sampleDepositTxResponse.body
        = some { messages := [[("@type", .vStr MESSAGE_TYPES.CONFIRM_BTC_DEPOSIT)
                              , ("reserveAddress", .vStr "res1")
                              , ("depositAmount", .vStr "12345678901234567890")
                              , ("height", .vStr "800000")
                              , ("hash", .vStr "btc")
                              , ("twilightDepositAddress", .vStr "twilightdep1")
                              , ("oracleAddress", .vStr "orac1")]]
                , memo := .vStr "" } from rfl] at hb
    injection hb with hb
    subst hb
    rcases List.mem_singleton.mp hmem with rfl
    rfl

end TwilightIndexer
